import Mathlib

/-!
Verification of the service-placement strategies of IcarusEdgeSim
(`icarus/models/strategy/service.py`), as a shallow embedding in Lean 4.

Simulated time, delays, deadlines and utilisation accumulators are modelled
as rationals (`ℚ`); Python's IEEE floats only ever hold such values in the
fragments embedded here.  VM counts and identifiers are naturals.
-/

namespace IcarusEdgeSim

/-! ## Status codes and admission results (module-level constants) -/

def REQUEST : ℕ := 0
def RESPONSE : ℕ := 1
def TASK_COMPLETE : ℕ := 2

def DEADLINE_MISSED : ℕ := 0
def CONGESTION : ℕ := 1
def SUCCESS : ℕ := 2
def CLOUD : ℕ := 3
def NO_INSTANCES : ℕ := 4

/-- Python 3 `round` (banker's rounding: halves go to the even integer),
as used in `int(round(util / replacement_interval))`. -/
def pyRound (q : ℚ) : ℤ :=
  let f : ℤ := Int.floor q
  let frac : ℚ := q - f
  if frac < 1/2 then f
  else if (1:ℚ)/2 < frac then f + 1
  else if f % 2 = 0 then f else f + 1

/-! ## C7 — the replacement prelude at the top of each `process_event`

Each of the five strategies begins `process_event` with
`if time - self.last_replacement > self.replacement_interval: ...`.
The actions inside that block are recorded as a trace.  -/

/-- One action performed by the replacement prelude of `process_event`. -/
inductive PreAction where
  | intervalOver
  | replacePass
  | setLastReplacement (t : ℚ)
  | resetMetrics
deriving DecidableEq, Repr

/-- Coordinated.process_event, lines 265-270: interval-over report, then
`replace_services(time)`, then `last_replacement = time`, then
`initialise_metrics()`. -/
def coordPrelude (time last interval : ℚ) : List PreAction :=
  if interval < time - last then
    [.intervalOver, .replacePass, .setLastReplacement time, .resetMetrics]
  else []

/-- Lru.process_event, lines 381-385: interval-over report, then
`last_replacement = time`, then `initialise_metrics()` — no replacement
pass is invoked (the class defines none). -/
def lruPrelude (time last interval : ℚ) : List PreAction :=
  if interval < time - last then
    [.intervalOver, .setLastReplacement time, .resetMetrics]
  else []

/-- Hybrid.process_event, lines 614-620: interval-over report, then
`replace_services1(time)`, then `last_replacement = time`, then
`initialise_metrics()`. -/
def hybridPrelude (time last interval : ℚ) : List PreAction :=
  if interval < time - last then
    [.intervalOver, .replacePass, .setLastReplacement time, .resetMetrics]
  else []

/-- MostFrequentlyUsed.process_event, lines 846-851: interval-over report,
then `replace_services(n_replacements, time)`, then `last_replacement =
time`, then `initialise_metrics()`. -/
def mfuPrelude (time last interval : ℚ) : List PreAction :=
  if interval < time - last then
    [.intervalOver, .replacePass, .setLastReplacement time, .resetMetrics]
  else []

/-- StrictestDeadlineFirst.process_event, lines 1074-1079: same shape as
MFU. -/
def sdfPrelude (time last interval : ℚ) : List PreAction :=
  if interval < time - last then
    [.intervalOver, .replacePass, .setLastReplacement time, .resetMetrics]
  else []

/-! ## C8 / C10 — Lru.process_event, REQUEST at an intermediate node
(lines 441-459). -/

/-- One positional argument of a `ComputeSpot.reassign_vm` call site. -/
inductive LruArg where
  | controllerArg
  | svcArg (s : ℕ)
  | debugArg (b : Bool)
deriving DecidableEq, Repr

/-- Observable actions of the LRU REQUEST branch. -/
inductive LruAction where
  | putContent (node svc : ℕ)
  | reassignVmArgs (args : List LruArg)
  | addEvent (t : ℚ) (recv svc next flow : ℕ) (deadline rtt : ℚ) (status : ℕ)
  | getContent (node svc : ℕ)
deriving DecidableEq, Repr

/-- Inputs of the LRU REQUEST-at-intermediate-node branch.  `admitRet` and
`reason` are the pair returned by `compSpot.admit_task`; `evicted` is the
service returned by `controller.put_content(node, service)`; `rand` is the
draw of `random.random()`. -/
structure LruReqIn where
  time : ℚ
  deadline : ℚ
  rtt : ℚ
  delay : ℚ
  serviceTime : ℚ
  p : ℚ
  rand : ℚ
  node : ℕ
  next : ℕ
  recv : ℕ
  svc : ℕ
  flow : ℕ
  admitRet : Bool
  reason : ℕ
  evicted : ℕ
  debug : Bool

/-- Lru.process_event, `elif status == REQUEST` branch (lines 441-459):
`delay = path_delay(node, next_node)`; on `ret == False`, if the reason is
`NO_INSTANCES` then either (slack too small) `put_content` followed by the
five-argument call `reassign_vm(controller, controller, evicted, service,
debug)`, or (with probability `p`) `put_content` followed by the
four-argument call `reassign_vm(controller, evicted, service, debug)`;
in every `ret == False` case `rtt_delay += 2*delay` and the request is
forwarded upstream; on `ret == True` only `get_content(node, service)`. -/
def lruRequestStep (i : LruReqIn) : List LruAction :=
  if i.admitRet = false then
    (if i.reason = NO_INSTANCES then
      (if i.deadline - i.time - i.rtt - 2 * i.delay < i.serviceTime then
        [.putContent i.node i.svc,
         .reassignVmArgs [.controllerArg, .controllerArg, .svcArg i.evicted,
                          .svcArg i.svc, .debugArg i.debug]]
       else if i.p = 1 ∨ i.rand ≤ i.p then
        [.putContent i.node i.svc,
         .reassignVmArgs [.controllerArg, .svcArg i.evicted, .svcArg i.svc,
                          .debugArg i.debug]]
       else [])
     else [])
    ++ [.addEvent (i.time + i.delay) i.recv i.svc i.next i.flow i.deadline
          (i.rtt + 2 * i.delay) REQUEST]
  else
    [.getContent i.node i.svc]

/-! ## C3 — Coordinated.replace_services, diff-and-report loop
(lines 231-250). -/

/-- Length of Python `range(d)` for an integer `d`: empty when `d ≤ 0`. -/
def pyRangeLen (d : ℤ) : ℕ := d.toNat

/-- The per-node diff loop of Coordinated.replace_services (lines 238-246):
for each service, `diff = numberOfServiceInstances[service] -
numVMsPerService[node][service]`; if `diff > 0` the service is appended
`diff` times to `servicesToAdd`; if `diff < 0` the loop `for indx in
range(diff)` appends it `range(diff)`-many times (i.e. never, since
`range` of a negative integer is empty) to `servicesToReplace`.
Returns `(servicesToReplace, servicesToAdd)`. -/
def coordDiffLists (numServices : ℕ) (inst snap : ℕ → ℕ) : List ℕ × List ℕ :=
  (List.range numServices).foldl
    (fun acc service =>
      let diff : ℤ := (inst service : ℤ) - (snap service : ℤ)
      if 0 < diff then
        (acc.1, acc.2 ++ List.replicate (pyRangeLen diff) service)
      else if diff < 0 then
        (acc.1 ++ List.replicate (pyRangeLen diff) service, acc.2)
      else acc)
    ([], [])

/-- One `controller.reassign_vm(node, serviceToReplace, servicesToAdd)`
call: the evicted slot (`none` when the index runs past
`servicesToReplace`) and the full `servicesToAdd` list passed as-is. -/
structure ReassignReport where
  node : ℕ
  serviceToReplace : Option ℕ
  servicesToAdd : List ℕ
deriving DecidableEq, Repr

/-- Lines 247-250: for each index of `servicesToAdd`, report
`reassign_vm(node, servicesToReplace[indx] if indx < len(...) else None,
servicesToAdd)`. -/
def coordDiffReport (node numServices : ℕ) (inst snap : ℕ → ℕ) :
    List ReassignReport :=
  let lists := coordDiffLists numServices inst snap
  (List.range lists.2.length).map fun indx =>
    { node := node
      serviceToReplace := lists.1.get? indx
      servicesToAdd := lists.2 }

/-! ## C6 — REQUEST at an intermediate node: Hybrid (lines 679-713)
versus MostFrequentlyUsed (lines 910-943). -/

/-- Inputs common to both branches.  `hasService` is
`view.has_service(node, service)`; `admitRet` the boolean returned by
`admit_task` (called with identical arguments by both strategies). -/
structure ReqStepIn where
  time : ℚ
  deadline : ℚ
  rtt : ℚ
  delay : ℚ
  serviceTime : ℚ
  hasService : Bool
  admitRet : Bool

/-- Effects of one REQUEST-at-intermediate-node step. -/
structure ReqStepOut where
  admitCalled : Bool
  forwardedEvent : Option (ℚ × ℚ)
  dmDelta : ℚ
  candDelta : ℚ
  missedDelta : ℕ
deriving DecidableEq, Repr

/-- Hybrid.process_event REQUEST branch (lines 679-713):
`deadline_metric = deadline - time - rtt_delay - service_time` (raw; the
`/deadline` in the source is commented out); the `missed_requests`
increment in the not-running branch is commented out. -/
def hybridRequestStep (i : ReqStepIn) : ReqStepOut :=
  let dm : ℚ := i.deadline - i.time - i.rtt - i.serviceTime
  if i.hasService then
    if i.admitRet = false then
      { admitCalled := true
        forwardedEvent := some (i.time + i.delay, i.rtt + 2 * i.delay)
        dmDelta := 0
        candDelta := if 0 < dm then dm else 0
        missedDelta := 0 }
    else
      { admitCalled := true
        forwardedEvent := none
        dmDelta := if 0 < dm then dm else 0
        candDelta := 0
        missedDelta := 0 }
  else
    { admitCalled := false
      forwardedEvent := some (i.time + i.delay, i.rtt + 2 * i.delay)
      dmDelta := 0
      candDelta := if 0 < dm then dm else 0
      missedDelta := 0 }

/-- MostFrequentlyUsed.process_event REQUEST branch (lines 910-943):
`deadline_metric = (deadline - time - rtt_delay - service_time)/deadline`,
and in the not-running branch `missed_requests[service] += 1`. -/
def mfuRequestStep (i : ReqStepIn) : ReqStepOut :=
  let dm : ℚ := (i.deadline - i.time - i.rtt - i.serviceTime) / i.deadline
  if i.hasService then
    if i.admitRet = false then
      { admitCalled := true
        forwardedEvent := some (i.time + i.delay, i.rtt + 2 * i.delay)
        dmDelta := 0
        candDelta := if 0 < dm then dm else 0
        missedDelta := 0 }
    else
      { admitCalled := true
        forwardedEvent := none
        dmDelta := if 0 < dm then dm else 0
        candDelta := 0
        missedDelta := 0 }
  else
    { admitCalled := false
      forwardedEvent := some (i.time + i.delay, i.rtt + 2 * i.delay)
      dmDelta := 0
      candDelta := if 0 < dm then dm else 0
      missedDelta := 1 }

/-! ## C1 / C4 — Coordinated: initial VM placement (lines 64-69) and the
replacement pass `replace_services` (lines 141-230).

The read-only topology data consulted by the pass is gathered in
`CoordView`; the mutable state (`numberOfServiceInstances` per node and
the `serviceNodeUtil` accumulators) in `CoordState`.  Receivers are
identified by the integer parsed from the `rcv_<n>` string, and the
`pathDelay`/`shortestPath` oracles accept that integer directly. -/

structure CoordView where
  numServices : ℕ
  receivers : List ℕ
  nodes : List ℕ
  depth : ℕ → ℕ
  height : ℕ
  pathDelay : ℕ → ℕ → ℚ
  shortestPath : ℕ → ℕ → List ℕ
  serviceTime : ℕ → ℚ
  deadlineOf : ℕ → ℚ
  numVMs : ℕ → ℕ
  interval : ℚ

structure CoordState where
  inst : ℕ → ℕ → ℕ
  util : ℕ → ℕ → ℕ → ℚ

/-- Write `numberOfServiceInstances[svc] = v` at `node`. -/
def setInst (st : CoordState) (node svc v : ℕ) : CoordState :=
  { st with inst := fun n s => if n = node ∧ s = svc then v else st.inst n s }

/-- Write `serviceNodeUtil[recv][node][svc] = v`. -/
def setUtil (st : CoordState) (recv node svc : ℕ) (v : ℚ) : CoordState :=
  { st with util := fun r n s =>
      if r = recv ∧ n = node ∧ s = svc then v else st.util r n s }

/-- Coordinated.__init__ lines 64-68: after zeroing, one instance is added
for service `vm % service_population_size` for each `vm <
numOfVMs`; the count of service `s` is the number of such `vm`. -/
def coordInitInstances (numVMs popSize s : ℕ) : ℕ :=
  ((Finset.range numVMs).filter fun vm => vm % popSize = s).card

/-- Lines 156-158: `for service in range(num_services):
numberOfServiceInstances[service] = 0` at one node. -/
def zeroAllInst (st : CoordState) (node numServices : ℕ) : CoordState :=
  { st with inst := fun n s =>
      if n = node ∧ s < numServices then 0 else st.inst n s }

/-- Lines 162-171: the per-node utilisation score of each service — the
sum of `serviceNodeUtil[recv][node][service]` over receivers, kept only
when `deadline > 2*path_delay(recv, node) + service_time` (adding the
skipped zero entries changes nothing). -/
def coordServiceUtils (V : CoordView) (st : CoordState) (node : ℕ) :
    List (ℕ × ℚ) :=
  (List.range V.numServices).map fun service =>
    (service,
      V.receivers.foldl
        (fun acc recv =>
          if V.deadlineOf service >
              2 * V.pathDelay recv node + V.serviceTime service then
            acc + st.util recv node service
          else acc)
        0)

/-- Lines 186-193 and 217-224: for each receiver with a nonzero
accumulator for `(node, svc)`, zero `serviceNodeUtil[recv][n][svc]` for
every `n` in `shortest_path(recv, node)[1:]`. -/
def zeroPathUtil (V : CoordView) (st : CoordState) (node svc : ℕ) :
    CoordState :=
  V.receivers.foldl
    (fun st1 recv =>
      if st1.util recv node svc = 0 then st1
      else
        ((V.shortestPath recv node).drop 1).foldl
          (fun st2 n => setUtil st2 recv n svc 0) st1)
    st

/-- Lines 182-200, the first allocation loop over the sorted utilisation
list: `num_vms = int(round(util/replacement_interval))`; when VMs remain
and `num_vms > 0` the contributing accumulators are zeroed along the
paths; then `numberOfServiceInstances[service] = min(num_vms,
remaining_vms)`, `remaining_vms` is decreased accordingly, and the loop
breaks when it reaches zero.  (`Int.toNat` encodes that
`int(round(util/interval))` is non-negative: the accumulators are sums of
service times and the interval is positive in every run.) -/
def allocFirst (V : CoordView) (node : ℕ) :
    List (ℕ × ℚ) → CoordState → ℕ → CoordState × ℕ
  | [], st, r => (st, r)
  | (service, util) :: rest, st, r =>
    let numVms : ℕ := (pyRound (util / V.interval)).toNat
    let st1 := if 0 < r ∧ 0 < numVms then zeroPathUtil V st node service else st
    let give := min numVms r
    let st2 := setInst st1 node service give
    let r2 := r - give
    if r2 = 0 then (st2, 0) else allocFirst V node rest st2 r2

/-- Lines 203-228, one pass of the body of `while remaining_vms > 0` over
the sorted utilisation list: a service that already holds an instance
gains one more VM; otherwise `num_vms = min(int(ceil(util/
replacement_interval)), remaining_vms)` VMs are allocated (zeroing the
contributing paths) when that is positive; the pass breaks as soon as
`remaining_vms` hits zero.  Returns the state, the remaining VMs, and the
`newAddition` flag. -/
def allocWhilePass (V : CoordView) (node : ℕ) :
    List (ℕ × ℚ) → CoordState → ℕ → Bool → CoordState × ℕ × Bool
  | [], st, r, newAdd => (st, r, newAdd)
  | (service, util) :: rest, st, r, newAdd =>
    if 0 < st.inst node service then
      let st1 := setInst st node service (st.inst node service + 1)
      let r1 := r - 1
      if r1 = 0 then (st1, 0, true) else allocWhilePass V node rest st1 r1 true
    else
      let numVms : ℕ := min (Int.ceil (util / V.interval)).toNat r
      if 0 < numVms then
        let st1 := setInst st node service numVms
        let r1 := r - numVms
        let st2 := zeroPathUtil V st1 node service
        if r1 = 0 then (st2, 0, true)
        else allocWhilePass V node rest st2 r1 true
      else
        if r = 0 then (st, 0, newAdd)
        else allocWhilePass V node rest st r newAdd

/-- Lines 201-230, `while remaining_vms > 0: ... if newAddition is False:
break`.  Each iteration whose pass reports an addition consumed at least
one VM, so `fuel = remaining_vms + 1` iterations always suffice; the
wrapper below supplies that fuel. -/
def allocWhile (V : CoordView) (node : ℕ) (sortedUtils : List (ℕ × ℚ)) :
    ℕ → CoordState → ℕ → CoordState × ℕ
  | 0, st, r => (st, r)
  | fuel + 1, st, r =>
    if r = 0 then (st, r)
    else
      let out := allocWhilePass V node sortedUtils st r false
      if out.2.2 = false then (out.1, out.2.1)
      else allocWhile V node sortedUtils fuel out.1 out.2.1

/-- Lines 160-230, the whole per-node body: score the services, sort them
by utilisation in descending order (Python's `sorted(...,
reverse=True)` is stable, as is `List.insertionSort`), run the first
allocation loop from `remaining_vms = numOfVMs`, then the while loop. -/
def coordProcessNode (V : CoordView) (st : CoordState) (node : ℕ) :
    CoordState :=
  let sortedUtils :=
    (coordServiceUtils V st node).insertionSort fun a b => b.2 ≤ a.2
  let out := allocFirst V node sortedUtils st (V.numVMs node)
  (allocWhile V node sortedUtils (out.2 + 1) out.1 out.2).1

/-- One iteration of the outer `for height in range(...)` loop of
Coordinated.replace_services (lines 147-230): collect the non-cloud
nodes of depth `h`, zero their `numberOfServiceInstances`, then run the
allocation body at each of them.  (`CoordView.nodes` lists the non-cloud
compute spots in dictionary order; the `is_cloud` entries are already
excluded.) -/
def coordHeightStep (V : CoordView) (st0 : CoordState) (h : ℕ) : CoordState :=
  let nodesAtH := V.nodes.filter fun n => V.depth n = h
  let stZ := nodesAtH.foldl (fun s n => zeroAllInst s n V.numServices) st0
  nodesAtH.foldl (fun s n => coordProcessNode V s n) stZ

/-- Coordinated.replace_services lines 147-230: the per-height body for
each `height` in `range(self.topo.graph['height']+1)`. -/
def coordReplaceServices (V : CoordView) (st : CoordState) : CoordState :=
  (List.range (V.height + 1)).foldl (coordHeightStep V) st

/-- Sum of a node's `numberOfServiceInstances` over the service catalog. -/
def sumInst (st : CoordState) (node numServices : ℕ) : ℕ :=
  ∑ s ∈ Finset.range numServices, st.inst node s

/-- All `serviceNodeUtil` accumulators are zero (a zero-traffic
interval). -/
def ZeroUtil (st : CoordState) : Prop := ∀ r n s, st.util r n s = 0

/-- A minimal concrete topology for exercising the Coordinated pass: one
non-cloud compute spot (node 0, depth 0) with 2 VMs, two services, one
receiver, `replacement_interval = 10`. -/
def coordExView : CoordView where
  numServices := 2
  receivers := [0]
  nodes := [0]
  depth := fun _ => 0
  height := 0
  pathDelay := fun _ _ => 1
  shortestPath := fun r n => [r, n]
  serviceTime := fun _ => 1
  deadlineOf := fun _ => 10
  numVMs := fun _ => 2
  interval := 10

/-- The state right after `Coordinated.__init__` on `coordExView`: the
round-robin placement (one VM per service) and all-zero accumulators. -/
def coordExState : CoordState where
  inst := fun n s => if n = 0 then coordInitInstances 2 2 s else 0
  util := fun _ _ _ => 0

/-! ## C2 — Coordinated.find_topmost_feasible_node (lines 97-138).

`Task(time, deadline, rtt_to_cs, n, service, serviceTime, flow_id,
receiver, time+delay)` mirrors the constructor call on line 120; the
`completionTime` field is what `compute_completion_times` refreshes.
`compute_completion_times` itself lives in `icarus/models/service` —
outside the repository slice — so it enters the model as the oracle
`FtfView.ct`, which returns the projected completion time of each task of
`_taskQueue` and of the (just-extended) `upcomingTaskQueue`, positionally.
-/

structure Task where
  creationTime : ℚ
  expiry : ℚ
  rtt_delay : ℚ
  node : ℕ
  service : ℕ
  serviceTime : ℚ
  flow_id : ℕ
  receiver : ℕ
  arrivalTime : ℚ
  completionTime : ℚ
deriving DecidableEq, Repr

/-- A node's `TaskScheduler` queues: `_taskQueue` and `upcomingTaskQueue`. -/
structure SchedState where
  taskQueue : List Task
  upcomingTaskQueue : List Task
deriving DecidableEq, Repr

structure FtfView where
  contentSource : ℕ → ℕ
  pathDelay : ℕ → ℕ → ℚ
  isCloud : ℕ → Bool
  instances : ℕ → ℕ → ℕ
  serviceTime : ℕ → ℕ → ℚ
  ct : ℕ → ℚ → List Task → List Task → List ℚ × List ℚ

/-- Assign the `i`-th projected completion time to the `i`-th task, as the
in-place mutation by `compute_completion_times` does. -/
def setCompletionTimes : List Task → List ℚ → List Task
  | [], _ => []
  | ts, [] => ts
  | t :: ts, c :: cs => { t with completionTime := c } :: setCompletionTimes ts cs

/-- Lines 115-132, the feasibility probe at candidate node `n`: build
`aTask`, append it to `upcomingTaskQueue` and re-sort by `arrivalTime`
(Python's stable `sorted`), refresh completion times, and scan
`_taskQueue + upcomingTaskQueue` for a task with `task.expiry - delay <
task.completionTime`.  On such a violation the probe fails and `aTask` is
removed (`.remove` deletes it at its position in the sorted queue); on
success `aTask` stays queued.  Returns the verdict and the node's updated
queues. -/
def ftfProbe (V : FtfView) (recv flow svc : ℕ) (time deadline rtt : ℚ)
    (n : ℕ) (st : SchedState) : Bool × SchedState :=
  let d := V.pathDelay recv n
  let aTask : Task :=
    ⟨time, deadline, rtt + 2 * d, n, svc, V.serviceTime n svc, flow, recv,
      time + d, 0⟩
  let uq1 := (st.upcomingTaskQueue ++ [aTask]).insertionSort
    fun a b => a.arrivalTime ≤ b.arrivalTime
  let cts := V.ct n time st.taskQueue uq1
  let tq2 := setCompletionTimes st.taskQueue cts.1
  let uq2 := setCompletionTimes uq1 cts.2
  if (tq2 ++ uq2).any (fun t => decide (t.expiry - d < t.completionTime)) then
    (false, ⟨tq2, uq2.eraseIdx (uq1.indexOf aTask)⟩)
  else
    (true, ⟨tq2, uq2⟩)

/-- Replace one node's scheduler state (the walk mutates only the probed
node's queues). -/
def updState (states : ℕ → SchedState) (n : ℕ) (st : SchedState) :
    ℕ → SchedState :=
  fun m => if m = n then st else states m

/-- Lines 107-138, the walk over `reversed(path[1:-1])`: skip cloud spots,
spots with no instance of the service, and spots whose round-trip leaves
less than `service_time` of slack; probe the rest, moving on (with the
tentative task removed) on failure and returning the candidate on
success; return the original `source` if nothing qualifies. -/
def ftfGo (V : FtfView) (recv flow svc : ℕ) (time deadline rtt : ℚ) :
    List ℕ → (ℕ → SchedState) → ℕ → ℕ × (ℕ → SchedState)
  | [], states, source => (source, states)
  | n :: rest, states, source =>
    if V.isCloud n then ftfGo V recv flow svc time deadline rtt rest states source
    else if V.instances n svc = 0 then
      ftfGo V recv flow svc time deadline rtt rest states source
    else if deadline - time - (rtt + 2 * V.pathDelay recv n) <
        V.serviceTime n svc then
      ftfGo V recv flow svc time deadline rtt rest states source
    else
      let out := ftfProbe V recv flow svc time deadline rtt n (states n)
      let states1 := updState states n out.2
      if out.1 then (n, states1)
      else ftfGo V recv flow svc time deadline rtt rest states1 source

/-- Coordinated.find_topmost_feasible_node: `source =
content_source(service)`, then the walk over `reversed(path[1:-1])`. -/
def findTopmostFeasibleNode (V : FtfView) (recv flow : ℕ) (path : List ℕ)
    (time : ℚ) (svc : ℕ) (deadline rtt : ℚ) (states : ℕ → SchedState) :
    ℕ × (ℕ → SchedState) :=
  ftfGo V recv flow svc time deadline rtt ((path.drop 1).dropLast).reverse
    states (V.contentSource svc)

/-- The declarative candidate test used to state C2: node `n` is probed at
all (not cloud, hosts the service, enough slack) and the probe on its
own original queues succeeds. -/
def ftfCandidate (V : FtfView) (recv flow svc : ℕ) (time deadline rtt : ℚ)
    (states : ℕ → SchedState) (n : ℕ) : Bool :=
  !V.isCloud n && !(V.instances n svc = 0) &&
    !(deadline - time - (rtt + 2 * V.pathDelay recv n) < V.serviceTime n svc) &&
    (ftfProbe V recv flow svc time deadline rtt n (states n)).1

/-- A concrete one-candidate instance for exercising the walk: path
`[10, 1, 99]`, node 1 a non-cloud spot hosting the service, empty
queues, unit delays and service time; the completion-time oracle
projects `arrivalTime + serviceTime`. -/
def ftfExView : FtfView where
  contentSource := fun _ => 99
  pathDelay := fun _ _ => 1
  isCloud := fun _ => false
  instances := fun _ _ => 1
  serviceTime := fun _ _ => 1
  ct := fun _ _ tq uq =>
    (tq.map (fun _ => 0), uq.map (fun t => t.arrivalTime + 1))

def ftfExStates : ℕ → SchedState := fun _ => ⟨[], []⟩

/-! ## C5 — Hybrid.replace_services1 (lines 507-596).

A node's inputs are its per-service counters and the two metric
dictionaries; `float('inf')` (the empty-denominator sentinel for the
average residual) is `⊤` in `WithTop ℚ`. -/

structure HybridNodeData where
  numServices : ℕ
  numberOfServiceInstances : ℕ → ℕ
  running_requests : ℕ → ℕ
  missed_requests : ℕ → ℕ
  serviceTime : ℕ → ℚ
  deadline_metric : ℕ → ℚ
  cand_deadline_metric : ℕ → ℚ
  interval : ℚ

/-- Lines 526-561: the per-service `d_metric` stored into `delay[service]`
— average residual of the missed requests when no instance runs, of the
running requests otherwise; `float('inf')` when the denominator is 0. -/
def hybDelay (D : HybridNodeData) (s : ℕ) : WithTop ℚ :=
  if D.numberOfServiceInstances s = 0 then
    if 0 < D.missed_requests s then
      (((D.cand_deadline_metric s) / (D.missed_requests s : ℚ) : ℚ) : WithTop ℚ)
    else ⊤
  else
    if 0 < D.running_requests s then
      (((D.deadline_metric s) / (D.running_requests s : ℚ) : ℚ) : WithTop ℚ)
    else ⊤

/-- `u_metric` clipped to the replacement interval (lines 538-539 and
552-553). -/
def clipUtil (D : HybridNodeData) (u : ℚ) : ℚ :=
  if D.interval < u then D.interval else u

/-- Lines 537-542 and 551-557: every service contributes
`missed_requests * service_time`, clipped, to
`missed_services_utilisation`. -/
def hybMissedList (D : HybridNodeData) : List (ℕ × ℚ) :=
  (List.range D.numServices).map fun s =>
    (s, clipUtil D ((D.missed_requests s : ℚ) * D.serviceTime s))

/-- Lines 555-559: services with at least one instance contribute
`(running_requests * service_time / instances) / instances` to
`running_services_utilisation_normalised`. -/
def hybRunningList (D : HybridNodeData) : List (ℕ × ℚ) :=
  (List.range D.numServices).filterMap fun s =>
    if 0 < D.numberOfServiceInstances s then
      some (s, (D.running_requests s : ℚ) * D.serviceTime s /
        (D.numberOfServiceInstances s : ℚ) / (D.numberOfServiceInstances s : ℚ))
    else none

/-- Line 564: ascending stable sort of the normalised running
utilisations. -/
def hybRunningSorted (D : HybridNodeData) : List (ℕ × ℚ) :=
  (hybRunningList D).insertionSort fun a b => a.2 ≤ b.2

/-- Line 565: descending stable sort of the missed utilisations. -/
def hybMissedSorted (D : HybridNodeData) : List (ℕ × ℚ) :=
  (hybMissedList D).insertionSort fun a b => b.2 ≤ a.2

/-- Result of scanning one missed service against the running list. -/
inductive InnerRes where
  | exitAll (running : List (ℕ × ℚ))
  | reassigned (sr : ℕ) (running : List (ℕ × ℚ))
  | exhausted (running : List (ℕ × ℚ))
deriving DecidableEq, Repr

/-- Keep a skipped entry at the front of the running list threaded through
the rest of the scan. -/
def consRes (p : ℕ × ℚ) : InnerRes → InnerRes
  | .exitAll l => .exitAll (p :: l)
  | .reassigned x l => .reassigned x (p :: l)
  | .exhausted l => .exhausted (p :: l)

/-- Lines 571-585, the inner `for indx in range(len(...))` loop for one
missed service `(sm, mu)`: stop everything when `running_util >
missed_util`; skip the entry when it is the same service; reassign —
deleting the entry and breaking — when `missed_util >= running_util and
delay[missed] < delay[running] and delay[missed] > 0`; otherwise move to
the next entry. -/
def hybInner (delay : ℕ → WithTop ℚ) (sm : ℕ) (mu : ℚ) :
    List (ℕ × ℚ) → InnerRes
  | [] => .exhausted []
  | (sr, ru) :: rest =>
    if mu < ru then .exitAll ((sr, ru) :: rest)
    else if sr = sm then consRes (sr, ru) (hybInner delay sm mu rest)
    else if mu ≥ ru ∧ delay sm < delay sr ∧ 0 < delay sm then
      .reassigned sr rest
    else consRes (sr, ru) (hybInner delay sm mu rest)

/-- Lines 567-585, the outer loop over the descending missed list,
threading the running list and stopping at `exit_loop`; emits the
`reassign_vm(running → missed)` pairs. -/
def hybOuter (delay : ℕ → WithTop ℚ) :
    List (ℕ × ℚ) → List (ℕ × ℚ) → List (ℕ × ℕ)
  | [], _ => []
  | (sm, mu) :: restMissed, running =>
    match hybInner delay sm mu running with
    | .exitAll _ => []
    | .reassigned sr running1 => (sr, sm) :: hybOuter delay restMissed running1
    | .exhausted running1 => hybOuter delay restMissed running1

/-- The whole per-node body of Hybrid.replace_services1: build and sort
the two utilisation lists, then run the scan; the result is the list of
`(from_service, to_service)` reassignments in order. -/
def hybridReplaceNode (D : HybridNodeData) : List (ℕ × ℕ) :=
  hybOuter (hybDelay D) (hybMissedSorted D) (hybRunningSorted D)

/-- A concrete node state for exercising Hybrid.replace_services1: two
services, one VM held by service 0 (one admitted request, total residual
5), service 1 missed once (total residual 2); `replacement_interval =
10`. Both the missed utilisation of service 1 and the normalised running
utilisation of service 0 equal `1`. -/
def hybExData : HybridNodeData where
  numServices := 2
  numberOfServiceInstances := fun s => if s = 0 then 1 else 0
  running_requests := fun s => if s = 0 then 1 else 0
  missed_requests := fun s => if s = 1 then 1 else 0
  serviceTime := fun _ => 1
  deadline_metric := fun s => if s = 0 then 5 else 0
  cand_deadline_metric := fun s => if s = 1 then 2 else 0
  interval := 10

/-! ## C9 — fail-fast dispatch outcomes. -/

/-- A halt of the simulation: a raised `ValueError` or a `sys.exit`.
The constructor names stand for the messages in the source. -/
inductive Halt where
  | raisedNoTaskWithFlowId
  | raisedTaskRejectedAtCloud
  | exitedUnexpectedRequest
deriving DecidableEq, Repr

/-- The handler Coordinated.process_event selects. -/
inductive CoordHandler where
  | receiverRequest
  | scheduleRequest
  | taskComplete
  | responseAtReceiver
deriving DecidableEq, Repr

/-- Coordinated.process_event dispatch (lines 272-341): REQUEST at the
receiver; REQUEST at `node != source` (raising when no task in the
`upcomingTaskQueue` carries the event's flow id); TASK_COMPLETE; RESPONSE
at the receiver; anything else prints and calls `sys.exit`. -/
def coordDispatch (source node receiver flow status : ℕ)
    (upcomingFlows : List ℕ) : Except Halt CoordHandler :=
  if receiver = node ∧ status = REQUEST then .ok .receiverRequest
  else if status = REQUEST ∧ node ≠ source then
    (if upcomingFlows.contains flow then .ok .scheduleRequest
     else .error .raisedNoTaskWithFlowId)
  else if status = TASK_COMPLETE then .ok .taskComplete
  else if status = RESPONSE ∧ node = receiver then .ok .responseAtReceiver
  else .error .exitedUnexpectedRequest

/-- The handler Hybrid.process_event (and MFU's, and SDF's) selects. -/
inductive HybHandler where
  | cloudRequest
  | receiverRequest
  | response
  | taskComplete
  | request
  | unknownStatusPrinted
deriving DecidableEq, Repr

/-- Hybrid.process_event dispatch (lines 627-715): REQUEST at the source
raises when `admit_task` rejects; the final `else` for an unrecognised
status only prints an error message and returns — no raise, no exit. -/
def hybridDispatch (source node receiver status : ℕ) (admitRet : Bool) :
    Except Halt HybHandler :=
  if source = node ∧ status = REQUEST then
    (if admitRet = false then .error .raisedTaskRejectedAtCloud
     else .ok .cloudRequest)
  else if receiver = node ∧ status = REQUEST then .ok .receiverRequest
  else if status = RESPONSE then .ok .response
  else if status = TASK_COMPLETE then .ok .taskComplete
  else if status = REQUEST then .ok .request
  else .ok .unknownStatusPrinted

/-- MostFrequentlyUsed.process_event dispatch (lines 858-945): same shape
as Hybrid's, including the print-only unknown-status `else`. -/
def mfuDispatch (source node receiver status : ℕ) (admitRet : Bool) :
    Except Halt HybHandler :=
  if source = node ∧ status = REQUEST then
    (if admitRet = false then .error .raisedTaskRejectedAtCloud
     else .ok .cloudRequest)
  else if receiver = node ∧ status = REQUEST then .ok .receiverRequest
  else if status = RESPONSE then .ok .response
  else if status = TASK_COMPLETE then .ok .taskComplete
  else if status = REQUEST then .ok .request
  else .ok .unknownStatusPrinted

/-- StrictestDeadlineFirst.process_event dispatch (lines 1086-1173): same
shape as Hybrid's, including the print-only unknown-status `else`. -/
def sdfDispatch (source node receiver status : ℕ) (admitRet : Bool) :
    Except Halt HybHandler :=
  if source = node ∧ status = REQUEST then
    (if admitRet = false then .error .raisedTaskRejectedAtCloud
     else .ok .cloudRequest)
  else if receiver = node ∧ status = REQUEST then .ok .receiverRequest
  else if status = RESPONSE then .ok .response
  else if status = TASK_COMPLETE then .ok .taskComplete
  else if status = REQUEST then .ok .request
  else .ok .unknownStatusPrinted

/-! # Theorems -/

/-- Helper: multiplying the positive part of `dm / d` back by a positive
`d` recovers the positive part of `dm`. -/
theorem ite_pos_div_mul (dm d : ℚ) (hd : 0 < d) :
    (if 0 < dm / d then dm / d else 0) * d = if 0 < dm then dm else 0 := by
  rcases lt_or_le 0 dm with h | h
  · rw [if_pos (div_pos h hd), if_pos h, div_mul_cancel₀ _ hd.ne']
  · rw [if_neg (by simpa using div_nonpos_of_nonpos_of_nonneg h hd.le),
      if_neg (by simpa using h), zero_mul]

/-- Claim C3, evidence of the code bug: with two services, previous
snapshot `[2, 0]` and new instance counts `[0, 2]`, service 0 lost two
VMs, yet `servicesToReplace` stays empty — the loop `for indx in
range(diff)` iterates over `range(-2) = []` — so both `reassign_vm`
reports carry `None` in the eviction slot instead of pairing the two
additions with two evictions of service 0. -/
theorem coordinated_diff_negative_range_empty :
    coordDiffLists 2 (fun s => if s = 0 then 0 else 2)
        (fun s => if s = 0 then 2 else 0) = ([], [1, 1]) ∧
    coordDiffReport 7 2 (fun s => if s = 0 then 0 else 2)
        (fun s => if s = 0 then 2 else 0) =
      [⟨7, none, [1, 1]⟩, ⟨7, none, [1, 1]⟩] := by decide

/-- Claim C6, counterexample: at `time = 0`, `deadline = 2`,
`rtt_delay = 0`, `link delay = 1`, `service_time = 1`, service resident,
`admit_task` rejecting, HYBRID adds the raw slack `1` to
`cand_deadline_metric`, while MFU adds the normalised `1/2` — the two
REQUEST handlers are not identical. -/
theorem mfu_hybrid_request_step_differ :
    (hybridRequestStep ⟨0, 2, 0, 1, 1, true, false⟩).candDelta = 1 ∧
    (mfuRequestStep ⟨0, 2, 0, 1, 1, true, false⟩).candDelta = 1/2 ∧
    mfuRequestStep ⟨0, 2, 0, 1, 1, true, false⟩ ≠
      hybridRequestStep ⟨0, 2, 0, 1, 1, true, false⟩ := by
  have h1 : (hybridRequestStep ⟨0, 2, 0, 1, 1, true, false⟩).candDelta = 1 := by
    simp [hybridRequestStep]; norm_num
  have h2 : (mfuRequestStep ⟨0, 2, 0, 1, 1, true, false⟩).candDelta = 1/2 := by
    simp [mfuRequestStep]; norm_num
  refine ⟨h1, h2, fun h => ?_⟩
  rw [congrArg ReqStepOut.candDelta h, h1] at h2
  norm_num at h2

/-- Claim C6 (amended): for every identical input, MFU's REQUEST handler
performs the same `admit_task` call and the same upstream forwarding as
HYBRID's, but accumulates the slack normalised by the deadline (HYBRID
accumulates it raw), and increments `missed_requests` when the service is
not resident (HYBRID does not). -/
theorem mfu_request_step_vs_hybrid (i : ReqStepIn) (hd : 0 < i.deadline) :
    (mfuRequestStep i).admitCalled = (hybridRequestStep i).admitCalled ∧
    (mfuRequestStep i).forwardedEvent = (hybridRequestStep i).forwardedEvent ∧
    (mfuRequestStep i).candDelta * i.deadline = (hybridRequestStep i).candDelta ∧
    (mfuRequestStep i).dmDelta * i.deadline = (hybridRequestStep i).dmDelta ∧
    (hybridRequestStep i).missedDelta = 0 ∧
    (mfuRequestStep i).missedDelta = if i.hasService then 0 else 1 := by
  have key := ite_pos_div_mul (i.deadline - i.time - i.rtt - i.serviceTime)
    i.deadline hd
  unfold mfuRequestStep hybridRequestStep
  cases hs : i.hasService <;> cases hr : i.admitRet <;>
    simp [hs, hr, key]

/-- Witness for C6's theorem at a concrete input. -/
theorem mfu_request_step_vs_hybrid_witness :
    (0:ℚ) < 2 ∧
    (mfuRequestStep ⟨0, 2, 0, 1, 1, true, false⟩).candDelta * 2 =
      (hybridRequestStep ⟨0, 2, 0, 1, 1, true, false⟩).candDelta :=
  ⟨by norm_num,
    (mfu_request_step_vs_hybrid ⟨0, 2, 0, 1, 1, true, false⟩ (by norm_num)).2.2.1⟩

/-- Claim C7, counterexample: with `replacement_interval = 10`,
`last_replacement = 0` and an event at `time = 11` the trigger holds, yet
LRU's prelude performs no replacement pass — `Lru` defines none and
`Lru.process_event` invokes none. -/
theorem lru_prelude_has_no_replacement_pass :
    (10:ℚ) < 11 - 0 ∧ PreAction.replacePass ∉ lruPrelude 11 0 10 := by
  refine ⟨by norm_num, ?_⟩
  unfold lruPrelude
  rw [if_pos (by norm_num)]
  decide

/-- Claim C7 (amended): when `time - last_replacement >
replacement_interval`, COORDINATED, HYBRID, MFU and SDF report the
interval, run their replacement pass, set `last_replacement` to the event
time and reset the per-interval counters — in that order, at the top of
`process_event` — while LRU does the same except that it runs no
replacement pass; when the trigger fails, none of the five does
anything. -/
theorem strategy_replacement_preludes (time last interval : ℚ) :
    (interval < time - last →
      coordPrelude time last interval =
        [.intervalOver, .replacePass, .setLastReplacement time, .resetMetrics] ∧
      hybridPrelude time last interval =
        [.intervalOver, .replacePass, .setLastReplacement time, .resetMetrics] ∧
      mfuPrelude time last interval =
        [.intervalOver, .replacePass, .setLastReplacement time, .resetMetrics] ∧
      sdfPrelude time last interval =
        [.intervalOver, .replacePass, .setLastReplacement time, .resetMetrics] ∧
      lruPrelude time last interval =
        [.intervalOver, .setLastReplacement time, .resetMetrics]) ∧
    (¬ interval < time - last →
      coordPrelude time last interval = [] ∧
      hybridPrelude time last interval = [] ∧
      mfuPrelude time last interval = [] ∧
      sdfPrelude time last interval = [] ∧
      lruPrelude time last interval = []) := by
  unfold coordPrelude hybridPrelude mfuPrelude sdfPrelude lruPrelude
  constructor <;> intro h <;> simp [h]

/-- Witness for C7's theorem at a concrete triggering input. -/
theorem strategy_replacement_preludes_witness :
    (10:ℚ) < 11 - 0 ∧
    lruPrelude 11 0 10 = [.intervalOver, .setLastReplacement 11, .resetMetrics] :=
  ⟨by norm_num,
    ((strategy_replacement_preludes 11 0 10).1 (by norm_num)).2.2.2.2⟩

/-- Claim C8, evidence of the code bug: in the deterministic branch
(remaining slack `5 - 0 - 0 - 2·1 = 3` below `service_time = 4`) LRU
emits `put_content` followed by `reassign_vm(controller, controller,
evicted, service, debug)` — five positional arguments with the
controller passed twice where the standard four-argument form
`reassign_vm(controller, evicted, service, debug)` (used in the
probabilistic branch) was intended — and then forwards upstream. -/
theorem lru_deterministic_branch_five_arg_call :
    lruRequestStep ⟨0, 5, 0, 1, 4, 1/2, 0, 3, 2, 9, 6, 42, false, 4, 8, false⟩ =
      [.putContent 3 6,
       .reassignVmArgs [.controllerArg, .controllerArg, .svcArg 8, .svcArg 6,
         .debugArg false],
       .addEvent 1 9 6 2 42 5 2 REQUEST] := by
  unfold lruRequestStep
  norm_num [NO_INSTANCES]

/-- Claim C10: in LRU's REQUEST handling at an intermediate compute node,
every `admit_task` rejection forwards the request upstream with
`rtt_delay` increased by `2·delay`; the eviction/installation actions
appear only when the reason is `NO_INSTANCES`; and
`get_content(node, service)` is called exactly when the task is
accepted. -/
theorem lru_request_admission_routing (i : LruReqIn) :
    (i.admitRet = false →
      LruAction.addEvent (i.time + i.delay) i.recv i.svc i.next i.flow
        i.deadline (i.rtt + 2 * i.delay) REQUEST ∈ lruRequestStep i) ∧
    (i.admitRet = false → i.reason ≠ NO_INSTANCES →
      lruRequestStep i =
        [.addEvent (i.time + i.delay) i.recv i.svc i.next i.flow i.deadline
          (i.rtt + 2 * i.delay) REQUEST]) ∧
    (LruAction.getContent i.node i.svc ∈ lruRequestStep i ↔
      i.admitRet = true) ∧
    (i.admitRet = true → lruRequestStep i = [.getContent i.node i.svc]) := by
  unfold lruRequestStep
  cases hr : i.admitRet
  · simp only [if_pos rfl]
    refine ⟨fun _ => List.mem_append_right _ (List.mem_singleton.2 rfl),
      fun _ hreason => by simp [hreason], ?_, fun h => by simp at h⟩
    constructor
    · intro hmem
      exfalso
      rcases List.mem_append.1 hmem with h | h
      · split_ifs at h <;> simp_all
      · simp at h
    · intro h; simp at h
  · simp

/-- Witness for C10's theorem at a concrete rejected-with-congestion
input. -/
theorem lru_request_admission_routing_witness :
    lruRequestStep ⟨0, 5, 0, 1, 4, 1/2, 0, 3, 2, 9, 6, 42, false, CONGESTION, 8, false⟩ =
      [.addEvent 1 9 6 2 42 5 2 REQUEST] := by
  have h := (lru_request_admission_routing
    ⟨0, 5, 0, 1, 4, 1/2, 0, 3, 2, 9, 6, 42, false, CONGESTION, 8, false⟩).2.1
    rfl (by decide)
  rw [h]
  norm_num

/-- Claim C9, counterexample: an event with the unknown status code `7`
reaching HYBRID's final `else` is only reported by a `print` and
processing continues — no raise, no exit — so not every invariant
violation halts the simulation. -/
theorem hybrid_unknown_status_continues :
    hybridDispatch 0 1 2 7 true = .ok .unknownStatusPrinted ∧
    7 ≠ REQUEST ∧ 7 ≠ RESPONSE ∧ 7 ≠ TASK_COMPLETE :=
  ⟨rfl, by decide, by decide, by decide⟩

/-- Claim C9 (amended): a REQUEST at a COORDINATED intermediate node with
no matching flow id in the `upcomingTaskQueue` raises, and a task
rejected by `admit_task` at the source raises in HYBRID, MFU and SDF;
but an unknown status code halts only in COORDINATED (`sys.exit`) —
HYBRID, MFU and SDF merely print an error and continue. -/
theorem fail_fast_outcomes (source node receiver flow status : ℕ)
    (upcomingFlows : List ℕ) (admitRet : Bool) :
    (status = REQUEST → receiver ≠ node → node ≠ source →
      flow ∉ upcomingFlows →
      coordDispatch source node receiver flow status upcomingFlows =
        .error .raisedNoTaskWithFlowId) ∧
    (source = node → status = REQUEST → admitRet = false →
      hybridDispatch source node receiver status admitRet =
          .error .raisedTaskRejectedAtCloud ∧
      mfuDispatch source node receiver status admitRet =
          .error .raisedTaskRejectedAtCloud ∧
      sdfDispatch source node receiver status admitRet =
          .error .raisedTaskRejectedAtCloud) ∧
    (status ≠ REQUEST → status ≠ RESPONSE → status ≠ TASK_COMPLETE →
      coordDispatch source node receiver flow status upcomingFlows =
          .error .exitedUnexpectedRequest ∧
      hybridDispatch source node receiver status admitRet =
          .ok .unknownStatusPrinted ∧
      mfuDispatch source node receiver status admitRet =
          .ok .unknownStatusPrinted ∧
      sdfDispatch source node receiver status admitRet =
          .ok .unknownStatusPrinted) := by
  unfold coordDispatch hybridDispatch mfuDispatch sdfDispatch
  refine ⟨fun h1 h2 h3 h4 => ?_, fun h1 h2 h3 => ?_, fun h1 h2 h3 => ?_⟩
  · simp [h1, h2, h3, h4]
  · simp [h1, h2, h3]
  · simp [h1, h2, h3]

/-- Witness for C9's theorem at concrete inputs. -/
theorem fail_fast_outcomes_witness :
    coordDispatch 0 1 2 5 REQUEST [] = .error .raisedNoTaskWithFlowId ∧
    hybridDispatch 3 3 2 REQUEST false = .error .raisedTaskRejectedAtCloud :=
  ⟨(fail_fast_outcomes 0 1 2 5 REQUEST [] true).1 rfl (by decide) (by decide)
      (List.not_mem_nil 5),
    ((fail_fast_outcomes 3 3 2 5 REQUEST [] false).2.1 rfl rfl rfl).1⟩

/-- Helper: when does a scan step that keeps its entry report a
reassignment. -/
theorem consRes_eq_reassigned (p : ℕ × ℚ) (r : InnerRes) (sr : ℕ)
    (L' : List (ℕ × ℚ)) :
    consRes p r = .reassigned sr L' ↔
      ∃ l, r = .reassigned sr l ∧ L' = p :: l := by
  cases r with
  | exitAll l =>
    constructor
    · intro h; exact absurd h (by simp [consRes])
    · rintro ⟨l', hl, -⟩; exact absurd hl (by simp)
  | reassigned x l =>
    constructor
    · intro h
      simp only [consRes] at h
      injection h with h1 h2
      subst h1
      exact ⟨l, rfl, h2.symm⟩
    · rintro ⟨l', hl, rfl⟩
      injection hl with h1 h2
      subst h1; subst h2
      rfl
  | exhausted l =>
    constructor
    · intro h; exact absurd h (by simp [consRes])
    · rintro ⟨l', hl, -⟩; exact absurd hl (by simp)

/-- Claim C5, counterexample: in `hybExData` the missed utilisation of
service 1 and the normalised running utilisation of service 0 are both
`1` — not strictly greater — and the slack conditions hold (average
missed slack `2` is positive and below the running average `5`), yet the
pass reassigns the VM from service 0 to service 1. -/
theorem hybrid_reassigns_on_equal_utilisation :
    hybRunningSorted hybExData = [(0, 1)] ∧
    hybMissedSorted hybExData = [(1, 1), (0, 0)] ∧
    hybridReplaceNode hybExData = [(0, 1)] := by
  have hrl : hybRunningList hybExData = [(0, 1)] := by
    norm_num [hybRunningList, hybExData, List.range_succ, List.filterMap_cons]
  have hrs : hybRunningSorted hybExData = [(0, 1)] := by
    unfold hybRunningSorted
    rw [hrl]
    norm_num [List.insertionSort]
  have hml : hybMissedList hybExData = [(0, 0), (1, 1)] := by
    norm_num [hybMissedList, hybExData, clipUtil, List.range_succ]
  have hms : hybMissedSorted hybExData = [(1, 1), (0, 0)] := by
    unfold hybMissedSorted
    rw [hml]
    norm_num [List.insertionSort, List.orderedInsert]
  have hd0 : hybDelay hybExData 0 = ((5 : ℚ) : WithTop ℚ) := by
    simp [hybDelay, hybExData]
  have hd1 : hybDelay hybExData 1 = ((2 : ℚ) : WithTop ℚ) := by
    simp [hybDelay, hybExData]
  refine ⟨hrs, hms, ?_⟩
  unfold hybridReplaceNode
  rw [hrs, hms]
  simp only [hybOuter, hybInner, hd0, hd1]
  norm_num [consRes, WithTop.coe_lt_coe, WithTop.coe_pos]
  split_ifs with h
  · simp [hybInner]
  · exfalso
    apply h
    exact_mod_cast (by norm_num : (2:ℚ) < 5)

/-- Claim C5 (amended): in HYBRID's per-missed-service scan of the
running list (ascending normalised utilisation against the descending
missed utilisations), a VM is reassigned from running entry `(sr, ru)` to
missed service `sm` with utilisation `mu` exactly when `(sr, ru)` is the
first entry such that `ru ≤ mu` (greater **or equal**, not strictly
greater, on the missed side), `sr ≠ sm`, the missed service's average
slack is positive and strictly below the running service's; every earlier
entry was skipped with `ru ≤ mu` because it was the same service or
failed the slack comparison, and the reassigned entry is dropped from the
rest of the scan. -/
theorem hybrid_scan_reassign_iff (delay : ℕ → WithTop ℚ) (sm : ℕ) (mu : ℚ)
    (L : List (ℕ × ℚ)) : ∀ (sr : ℕ) (L' : List (ℕ × ℚ)),
    hybInner delay sm mu L = .reassigned sr L' ↔
      ∃ l₁ ru l₂, L = l₁ ++ (sr, ru) :: l₂ ∧ L' = l₁ ++ l₂ ∧
        (∀ x ∈ l₁,
          x.2 ≤ mu ∧ (x.1 = sm ∨ ¬(delay sm < delay x.1 ∧ 0 < delay sm))) ∧
        ru ≤ mu ∧ sr ≠ sm ∧ delay sm < delay sr ∧ 0 < delay sm := by
  induction L with
  | nil =>
    intro sr L'
    constructor
    · intro h; simp [hybInner] at h
    · rintro ⟨l₁, ru, l₂, hL, -⟩
      exact absurd hL.symm (by simp)
  | cons hd tl ih =>
    intro sr L'
    obtain ⟨a, b⟩ := hd
    simp only [hybInner]
    split_ifs with h1 h2 h3
    · constructor
      · intro h; simp at h
      · rintro ⟨l₁, ru, l₂, hL, hL', hpre, hru, hne, hlt, hpos⟩
        cases l₁ with
        | nil =>
          rw [List.nil_append] at hL
          injection hL with hab htl
          injection hab with h5 h6
          subst h5; subst h6
          exact absurd hru (not_le.2 h1)
        | cons y ys =>
          rw [List.cons_append] at hL
          injection hL with hy htl
          have hx := hpre y (List.mem_cons_self y ys)
          rw [← hy] at hx
          exact absurd hx.1 (not_le.2 h1)
    · rw [consRes_eq_reassigned]
      constructor
      · rintro ⟨l, hl, rfl⟩
        obtain ⟨l₁, ru, l₂, rfl, rfl, hpre, hcond⟩ := (ih sr l).1 hl
        refine ⟨(a, b) :: l₁, ru, l₂, by simp, by simp, ?_, hcond⟩
        intro x hx
        rcases List.mem_cons.1 hx with rfl | hx'
        · exact ⟨not_lt.1 h1, Or.inl h2⟩
        · exact hpre x hx'
      · rintro ⟨l₁, ru, l₂, hL, hL', hpre, hru, hne, hlt, hpos⟩
        cases l₁ with
        | nil =>
          rw [List.nil_append] at hL
          injection hL with hab htl
          injection hab with h5 h6
          subst h5
          exact absurd h2 hne
        | cons y ys =>
          rw [List.cons_append] at hL
          injection hL with hy htl
          subst hy
          refine ⟨ys ++ l₂, (ih sr _).2
            ⟨ys, ru, l₂, htl, rfl,
              fun x hx => hpre x (List.mem_cons_of_mem _ hx),
              hru, hne, hlt, hpos⟩, ?_⟩
          simpa using hL'
    · constructor
      · intro h
        injection h with h4 h5
        subst h4; subst h5
        exact ⟨[], b, tl, by simp, by simp, by simp,
          not_lt.1 h1, h2, h3.2.1, h3.2.2⟩
      · rintro ⟨l₁, ru, l₂, hL, hL', hpre, hru, hne, hlt, hpos⟩
        cases l₁ with
        | nil =>
          rw [List.nil_append] at hL
          injection hL with hab htl
          injection hab with h5 h6
          subst h5; subst htl
          rw [hL', List.nil_append]
        | cons y ys =>
          rw [List.cons_append] at hL
          injection hL with hy htl
          have hx := hpre y (List.mem_cons_self y ys)
          rw [← hy] at hx
          rcases hx.2 with hsm | hnd
          · exact absurd hsm h2
          · exact absurd ⟨h3.2.1, h3.2.2⟩ hnd
    · rw [consRes_eq_reassigned]
      constructor
      · rintro ⟨l, hl, rfl⟩
        obtain ⟨l₁, ru, l₂, rfl, rfl, hpre, hcond⟩ := (ih sr l).1 hl
        refine ⟨(a, b) :: l₁, ru, l₂, by simp, by simp, ?_, hcond⟩
        intro x hx
        rcases List.mem_cons.1 hx with rfl | hx'
        · refine ⟨not_lt.1 h1, Or.inr fun hc => ?_⟩
          exact h3 ⟨not_lt.1 h1, hc.1, hc.2⟩
        · exact hpre x hx'
      · rintro ⟨l₁, ru, l₂, hL, hL', hpre, hru, hne, hlt, hpos⟩
        cases l₁ with
        | nil =>
          rw [List.nil_append] at hL
          injection hL with hab htl
          injection hab with h5 h6
          subst h5; subst h6
          exact absurd ⟨hru, hlt, hpos⟩ h3
        | cons y ys =>
          rw [List.cons_append] at hL
          injection hL with hy htl
          subst hy
          refine ⟨ys ++ l₂, (ih sr _).2
            ⟨ys, ru, l₂, htl, rfl,
              fun x hx => hpre x (List.mem_cons_of_mem _ hx),
              hru, hne, hlt, hpos⟩, ?_⟩
          simpa using hL'

/-! ### Helper lemmas for the Coordinated replacement pass (C1, C4) -/

theorem setUtil_inst (st : CoordState) (r n s : ℕ) (v : ℚ) :
    (setUtil st r n s v).inst = st.inst := rfl

theorem setInst_util (st : CoordState) (n s v : ℕ) :
    (setInst st n s v).util = st.util := rfl

theorem zeroAllInst_util (st : CoordState) (node N : ℕ) :
    (zeroAllInst st node N).util = st.util := rfl

theorem zeroAllInst_inst (st : CoordState) (node N n s : ℕ) :
    (zeroAllInst st node N).inst n s =
      if n = node ∧ s < N then 0 else st.inst n s := rfl

theorem setInst_inst_other (st : CoordState) (node svc v n s : ℕ)
    (h : n ≠ node) : (setInst st node svc v).inst n s = st.inst n s := by
  simp [setInst, h]

theorem foldl_setUtil_inst (recv svc : ℕ) (path : List ℕ) (st : CoordState) :
    (path.foldl (fun st2 n => setUtil st2 recv n svc 0) st).inst = st.inst := by
  induction path generalizing st with
  | nil => rfl
  | cons b u ih =>
    rw [List.foldl_cons, ih]
    rfl

/-- `zeroPathUtil` only writes accumulators, never instance counts. -/
theorem zeroPathUtil_inst (V : CoordView) (st : CoordState) (node svc : ℕ) :
    (zeroPathUtil V st node svc).inst = st.inst := by
  unfold zeroPathUtil
  generalize V.receivers = rs
  induction rs generalizing st with
  | nil => rfl
  | cons a t ih =>
    rw [List.foldl_cons]
    rw [ih]
    split_ifs with h
    · rfl
    · rw [foldl_setUtil_inst]

/-- With all accumulators zero, `zeroPathUtil` is the identity. -/
theorem zeroPathUtil_of_zero (V : CoordView) (st : CoordState)
    (node svc : ℕ) (hz : ZeroUtil st) :
    zeroPathUtil V st node svc = st := by
  unfold zeroPathUtil
  generalize V.receivers = rs
  induction rs with
  | nil => rfl
  | cons a t ih =>
    rw [List.foldl_cons, if_pos (hz a node svc), ih]

/-- A sum over a node's row only depends on that row. -/
theorem sumInst_congr (st1 st2 : CoordState) (node N : ℕ)
    (h : ∀ s, s < N → st1.inst node s = st2.inst node s) :
    sumInst st1 node N = sumInst st2 node N :=
  Finset.sum_congr rfl fun s hs => h s (Finset.mem_range.1 hs)

/-- Writing `v` over the old value at a catalog slot shifts the row sum
from the old value to `v`. -/
theorem sumInst_setInst (st : CoordState) (node s0 v N : ℕ) (hs : s0 < N) :
    sumInst (setInst st node s0 v) node N + st.inst node s0 =
      sumInst st node N + v := by
  unfold sumInst setInst
  have hmem : s0 ∈ Finset.range N := Finset.mem_range.2 hs
  have h1 : ∀ f : ℕ → ℕ, ∑ s ∈ Finset.range N, f s =
      f s0 + ∑ s ∈ (Finset.range N).erase s0, f s :=
    fun f => (Finset.add_sum_erase _ f hmem).symm
  rw [h1 (fun s => if node = node ∧ s = s0 then v else st.inst node s),
    h1 (fun s => st.inst node s)]
  have h2 : ∑ s ∈ (Finset.range N).erase s0,
      (if node = node ∧ s = s0 then v else st.inst node s) =
        ∑ s ∈ (Finset.range N).erase s0, st.inst node s :=
    Finset.sum_congr rfl fun x hx => by
      simp [Finset.ne_of_mem_erase hx]
  rw [h2]
  simp
  omega

theorem pyRound_zero : pyRound 0 = 0 := by
  norm_num [pyRound]

/-- Writing over a pre-zeroed slot through any instance-preserving
detour adds exactly the written amount to the row sum. -/
theorem sumInst_write_zero (st stW : CoordState) (node service give N : ℕ)
    (hsN : service < N) (hW : stW.inst = st.inst)
    (h0 : st.inst node service = 0) :
    sumInst (setInst stW node service give) node N = sumInst st node N + give := by
  have e1 : sumInst stW node N = sumInst st node N :=
    sumInst_congr _ _ _ _ (fun s _ => by rw [hW])
  have e2 : stW.inst node service = 0 := by rw [hW]; exact h0
  have key := sumInst_setInst stW node service give N hsN
  rw [e2, e1] at key
  omega

/-- The first allocation loop preserves `row-sum + remaining_vms`
whenever the catalog keys are distinct, in range, and pre-zeroed. -/
theorem allocFirst_sum (V : CoordView) (node N : ℕ) :
    ∀ (l : List (ℕ × ℚ)) (st : CoordState) (r : ℕ),
      (∀ p ∈ l, p.1 < N) → (l.map Prod.fst).Nodup →
      (∀ p ∈ l, st.inst node p.1 = 0) →
      sumInst (allocFirst V node l st r).1 node N +
        (allocFirst V node l st r).2 = sumInst st node N + r := by
  intro l
  induction l with
  | nil => intro st r _ _ _; simp [allocFirst]
  | cons p t ih =>
    intro st r h1 h2 h3
    obtain ⟨service, util⟩ := p
    have hsN : service < N := h1 _ (List.mem_cons_self _ _)
    have h0 : st.inst node service = 0 := h3 _ (List.mem_cons_self _ _)
    have hgive : min ((pyRound (util / V.interval)).toNat) r ≤ r :=
      min_le_right _ _
    have hWz := sumInst_write_zero st (zeroPathUtil V st node service) node
      service (min ((pyRound (util / V.interval)).toNat) r) N hsN
      (zeroPathUtil_inst V st node service) h0
    have hWs := sumInst_write_zero st st node service
      (min ((pyRound (util / V.interval)).toNat) r) N hsN rfl h0
    have htail : ∀ (stW : CoordState), stW.inst = st.inst →
        ∀ p ∈ t, (setInst stW node service
          (min ((pyRound (util / V.interval)).toNat) r)).inst node p.1 = 0 := by
      intro stW hW p hp
      have hne : p.1 ≠ service := by
        intro hcontra
        have hmm : p.1 ∈ t.map Prod.fst := List.mem_map_of_mem Prod.fst hp
        rw [hcontra] at hmm
        exact (List.nodup_cons.1 h2).1 hmm
      show (if node = node ∧ p.1 = service then _ else stW.inst node p.1) = 0
      rw [if_neg (by simp [hne]), hW]
      exact h3 _ (List.mem_cons_of_mem _ hp)
    simp only [allocFirst]
    split_ifs with hbr hz hz
    · -- loop breaks at remaining_vms = 0, paths were zeroed
      rw [hWz]
      omega
    · -- loop breaks at remaining_vms = 0, no path zeroing
      rw [hWs]
      omega
    · -- loop continues, paths were zeroed
      rw [ih _ _ (fun p hp => h1 _ (List.mem_cons_of_mem _ hp))
        (List.nodup_cons.1 h2).2
        (htail _ (zeroPathUtil_inst V st node service)), hWz]
      omega
    · -- loop continues, no path zeroing
      rw [ih _ _ (fun p hp => h1 _ (List.mem_cons_of_mem _ hp))
        (List.nodup_cons.1 h2).2 (htail _ rfl), hWs]
      omega

/-- One pass of the `while remaining_vms > 0` body preserves
`row-sum + remaining_vms` (the branch guard supplies the pre-zero for
fresh allocations). -/
theorem allocWhilePass_sum (V : CoordView) (node N : ℕ) :
    ∀ (l : List (ℕ × ℚ)) (st : CoordState) (r : ℕ) (b : Bool),
      (∀ p ∈ l, p.1 < N) → 0 < r →
      sumInst (allocWhilePass V node l st r b).1 node N +
        (allocWhilePass V node l st r b).2.1 = sumInst st node N + r := by
  intro l
  induction l with
  | nil => intro st r b _ _; simp [allocWhilePass]
  | cons p t ih =>
    intro st r b h1 hr
    obtain ⟨service, util⟩ := p
    have hsN : service < N := h1 _ (List.mem_cons_self _ _)
    simp only [allocWhilePass]
    split_ifs with hpos hr1 hnum hrm hr0
    · -- one VM added to a running service, remaining hits zero
      show sumInst (setInst st node service (st.inst node service + 1))
          node N + 0 = sumInst st node N + r
      have key := sumInst_setInst st node service (st.inst node service + 1)
        N hsN
      omega
    · -- one VM added, loop continues
      have key := sumInst_setInst st node service (st.inst node service + 1)
        N hsN
      have := ih (setInst st node service (st.inst node service + 1))
        (r - 1) true
        (fun p hp => h1 _ (List.mem_cons_of_mem _ hp))
        (by omega)
      omega
    · -- fresh allocation consumes the rest of the VMs
      show sumInst (zeroPathUtil V (setInst st node service
          (min ((Int.ceil (util / V.interval)).toNat) r)) node service)
            node N + 0 = sumInst st node N + r
      have hz : st.inst node service = 0 := by omega
      have hsum2 := sumInst_write_zero st st node service
        (min ((Int.ceil (util / V.interval)).toNat) r) N hsN rfl hz
      have hcongr : sumInst (zeroPathUtil V (setInst st node service
          (min ((Int.ceil (util / V.interval)).toNat) r)) node service)
            node N =
          sumInst (setInst st node service
            (min ((Int.ceil (util / V.interval)).toNat) r)) node N :=
        sumInst_congr _ _ _ _ (fun s _ => by rw [zeroPathUtil_inst])
      have hmin : min ((Int.ceil (util / V.interval)).toNat) r ≤ r :=
        min_le_right _ _
      omega
    · -- fresh allocation, loop continues
      have hz : st.inst node service = 0 := by omega
      have hsum2 := sumInst_write_zero st st node service
        (min ((Int.ceil (util / V.interval)).toNat) r) N hsN rfl hz
      have hcongr : sumInst (zeroPathUtil V (setInst st node service
          (min ((Int.ceil (util / V.interval)).toNat) r)) node service)
            node N =
          sumInst (setInst st node service
            (min ((Int.ceil (util / V.interval)).toNat) r)) node N :=
        sumInst_congr _ _ _ _ (fun s _ => by rw [zeroPathUtil_inst])
      have hmin : min ((Int.ceil (util / V.interval)).toNat) r ≤ r :=
        min_le_right _ _
      have := ih (zeroPathUtil V (setInst st node service
          (min ((Int.ceil (util / V.interval)).toNat) r)) node service)
        (r - min ((Int.ceil (util / V.interval)).toNat) r) true
        (fun p hp => h1 _ (List.mem_cons_of_mem _ hp))
        (by omega)
      omega
    · -- num_vms = 0 and remaining_vms = 0: impossible under 0 < r
      omega
    · -- num_vms = 0, move to the next service
      exact ih st r b (fun p hp => h1 _ (List.mem_cons_of_mem _ hp)) hr

/-- Every iteration of the while loop preserves
`row-sum + remaining_vms`. -/
theorem allocWhile_sum (V : CoordView) (node N : ℕ)
    (sortedUtils : List (ℕ × ℚ)) (h1 : ∀ p ∈ sortedUtils, p.1 < N) :
    ∀ (fuel : ℕ) (st : CoordState) (r : ℕ),
      sumInst (allocWhile V node sortedUtils fuel st r).1 node N +
        (allocWhile V node sortedUtils fuel st r).2 =
          sumInst st node N + r := by
  intro fuel
  induction fuel with
  | zero => intro st r; simp [allocWhile]
  | succ fuel ih =>
    intro st r
    simp only [allocWhile]
    by_cases hr : r = 0
    · rw [if_pos hr]
    · rw [if_neg hr]
      have hpass := allocWhilePass_sum V node N sortedUtils st r false h1
        (Nat.pos_of_ne_zero hr)
      by_cases hb : (allocWhilePass V node sortedUtils st r false).2.2 = false
      · rw [if_pos hb]
        exact hpass
      · rw [if_neg hb]
        rw [ih]
        exact hpass

theorem coordServiceUtils_map_fst (V : CoordView) (st : CoordState)
    (node : ℕ) :
    (coordServiceUtils V st node).map Prod.fst = List.range V.numServices := by
  unfold coordServiceUtils
  rw [List.map_map]
  exact List.map_id _

/-- After the body pass at a node whose row was pre-zeroed, the row sum
is at most the node's VM pool. -/
theorem coordProcessNode_sum (V : CoordView) (st : CoordState) (node : ℕ)
    (hpre : ∀ s, s < V.numServices → st.inst node s = 0) :
    sumInst (coordProcessNode V st node) node V.numServices ≤ V.numVMs node := by
  simp only [coordProcessNode]
  set S := (coordServiceUtils V st node).insertionSort
    (fun a b => b.2 ≤ a.2) with hS
  have hperm : S.Perm (coordServiceUtils V st node) :=
    List.perm_insertionSort _ _
  have hkeys : ∀ p ∈ S, p.1 < V.numServices := by
    intro p hp
    have : p.1 ∈ (coordServiceUtils V st node).map Prod.fst :=
      List.mem_map_of_mem Prod.fst (hperm.mem_iff.1 hp)
    rw [coordServiceUtils_map_fst] at this
    exact List.mem_range.1 this
  have hnodup : (S.map Prod.fst).Nodup := by
    have : (S.map Prod.fst).Perm
        ((coordServiceUtils V st node).map Prod.fst) := hperm.map _
    rw [coordServiceUtils_map_fst] at this
    exact this.nodup_iff.2 (List.nodup_range _)
  have hinst : ∀ p ∈ S, st.inst node p.1 = 0 :=
    fun p hp => hpre _ (hkeys p hp)
  have hsum0 : sumInst st node V.numServices = 0 :=
    Finset.sum_eq_zero fun s hs => hpre s (Finset.mem_range.1 hs)
  have hAF := allocFirst_sum V node V.numServices S st (V.numVMs node)
    hkeys hnodup hinst
  rw [hsum0] at hAF
  have hAW := allocWhile_sum V node V.numServices S hkeys
    ((allocFirst V node S st (V.numVMs node)).2 + 1)
    (allocFirst V node S st (V.numVMs node)).1
    (allocFirst V node S st (V.numVMs node)).2
  omega

/-- A write at `node`, through any instance-preserving detour, leaves the
rows of other nodes unchanged. -/
theorem setInst_detour_inst_other (st stW : CoordState)
    (node service v n : ℕ) (hW : stW.inst = st.inst) (h : n ≠ node) :
    (setInst stW node service v).inst n = st.inst n := by
  funext s
  show (if n = node ∧ s = service then v else stW.inst n s) = st.inst n s
  rw [if_neg (by simp [h]), hW]

theorem allocFirst_inst_other (V : CoordView) (node : ℕ) :
    ∀ (l : List (ℕ × ℚ)) (st : CoordState) (r : ℕ) (n : ℕ), n ≠ node →
      (allocFirst V node l st r).1.inst n = st.inst n := by
  intro l
  induction l with
  | nil => intro st r n _; rfl
  | cons p t ih =>
    intro st r n h
    obtain ⟨service, util⟩ := p
    simp only [allocFirst]
    split_ifs with hbr hz hz
    · exact setInst_detour_inst_other st _ node service _ n
        (zeroPathUtil_inst V st node service) h
    · exact setInst_detour_inst_other st st node service _ n rfl h
    · exact (ih _ _ _ h).trans (setInst_detour_inst_other st _ node service
        _ n (zeroPathUtil_inst V st node service) h)
    · exact (ih _ _ _ h).trans
        (setInst_detour_inst_other st st node service _ n rfl h)

theorem allocWhilePass_inst_other (V : CoordView) (node : ℕ) :
    ∀ (l : List (ℕ × ℚ)) (st : CoordState) (r : ℕ) (b : Bool) (n : ℕ),
      n ≠ node →
      (allocWhilePass V node l st r b).1.inst n = st.inst n := by
  intro l
  induction l with
  | nil => intro st r b n _; rfl
  | cons p t ih =>
    intro st r b n h
    obtain ⟨service, util⟩ := p
    simp only [allocWhilePass]
    split_ifs with hpos hr1 hnum hrm hr0
    · exact setInst_detour_inst_other st st node service _ n rfl h
    · exact (ih _ _ _ _ h).trans
        (setInst_detour_inst_other st st node service _ n rfl h)
    · exact (congrFun (zeroPathUtil_inst V _ node service) n).trans
        (setInst_detour_inst_other st st node service _ n rfl h)
    · exact (ih _ _ _ _ h).trans
        ((congrFun (zeroPathUtil_inst V _ node service) n).trans
          (setInst_detour_inst_other st st node service _ n rfl h))
    · rfl
    · exact ih _ _ _ _ h

theorem allocWhile_inst_other (V : CoordView) (node : ℕ)
    (sortedUtils : List (ℕ × ℚ)) :
    ∀ (fuel : ℕ) (st : CoordState) (r : ℕ) (n : ℕ), n ≠ node →
      (allocWhile V node sortedUtils fuel st r).1.inst n = st.inst n := by
  intro fuel
  induction fuel with
  | zero => intro st r n _; rfl
  | succ fuel ih =>
    intro st r n h
    simp only [allocWhile]
    by_cases hr : r = 0
    · rw [if_pos hr]
    · rw [if_neg hr]
      by_cases hb : (allocWhilePass V node sortedUtils st r false).2.2 = false
      · rw [if_pos hb]
        exact allocWhilePass_inst_other V node sortedUtils st r false n h
      · rw [if_neg hb]
        exact (ih _ _ _ h).trans
          (allocWhilePass_inst_other V node sortedUtils st r false n h)

theorem coordProcessNode_inst_other (V : CoordView) (st : CoordState)
    (node n : ℕ) (h : n ≠ node) :
    (coordProcessNode V st node).inst n = st.inst n := by
  simp only [coordProcessNode]
  exact (allocWhile_inst_other V node _ _ _ _ n h).trans
    (allocFirst_inst_other V node _ st _ n h)

theorem zeroFold_util (nodes : List ℕ) (N : ℕ) :
    ∀ st : CoordState,
      (nodes.foldl (fun s0 m => zeroAllInst s0 m N) st).util = st.util := by
  induction nodes with
  | nil => intro st; rfl
  | cons a t ih =>
    intro st
    rw [List.foldl_cons, ih]
    rfl

/-- The zeroing loop over a list of nodes, characterised pointwise. -/
theorem zeroFold_inst (nodes : List ℕ) (N : ℕ) :
    ∀ (st : CoordState) (n s : ℕ),
      (nodes.foldl (fun s0 m => zeroAllInst s0 m N) st).inst n s =
        if n ∈ nodes ∧ s < N then 0 else st.inst n s := by
  induction nodes with
  | nil => intro st n s; simp
  | cons a t ih =>
    intro st n s
    rw [List.foldl_cons, ih]
    by_cases h1 : n ∈ t ∧ s < N
    · rw [if_pos h1, if_pos ⟨List.mem_cons_of_mem _ h1.1, h1.2⟩]
    · rw [if_neg h1, zeroAllInst_inst]
      by_cases h2 : n = a ∧ s < N
      · rw [if_pos h2, if_pos ⟨h2.1 ▸ List.mem_cons_self _ _, h2.2⟩]
      · rw [if_neg h2, if_neg ?_]
        intro hc
        rcases List.mem_cons.1 hc.1 with he | he
        · exact h2 ⟨he, hc.2⟩
        · exact h1 ⟨he, hc.2⟩

theorem processFold_inst_other (V : CoordView) :
    ∀ (nodes : List ℕ) (st : CoordState) (n : ℕ), n ∉ nodes →
      (nodes.foldl (fun s m => coordProcessNode V s m) st).inst n =
        st.inst n := by
  intro nodes
  induction nodes with
  | nil => intro st n _; rfl
  | cons a t ih =>
    intro st n h
    rw [List.foldl_cons,
      ih _ _ (fun hc => h (List.mem_cons_of_mem _ hc))]
    exact coordProcessNode_inst_other V st a n
      (fun hc => h (hc ▸ List.mem_cons_self _ _))

/-- A height step touches no node of another depth. -/
theorem coordHeightStep_inst_other (V : CoordView) (st : CoordState)
    (hh node : ℕ) (hne : V.depth node ≠ hh) :
    (coordHeightStep V st hh).inst node = st.inst node := by
  simp only [coordHeightStep]
  have hnot : node ∉ V.nodes.filter (fun n => V.depth n = hh) := by
    intro hc
    exact hne (by simpa using (List.mem_filter.1 hc).2)
  rw [processFold_inst_other V _ _ _ hnot]
  funext s
  rw [zeroFold_inst]
  exact if_neg (fun hc => hnot hc.1)

/-- After the height step of a node's own depth, the node's row sums to
at most its VM pool (the step zeroes the row first and then runs the
allocation body). -/
theorem coordHeightStep_sum (V : CoordView) (st : CoordState) (node : ℕ)
    (hmem : node ∈ V.nodes) (hnd : V.nodes.Nodup) :
    sumInst (coordHeightStep V st (V.depth node)) node V.numServices ≤
      V.numVMs node := by
  simp only [coordHeightStep]
  set L := V.nodes.filter (fun n => V.depth n = V.depth node) with hLdef
  have hmemL : node ∈ L := List.mem_filter.2 ⟨hmem, by simp⟩
  have hndL : L.Nodup := hnd.filter _
  set stZ := L.foldl (fun s n => zeroAllInst s n V.numServices) st with hstZ
  have hrowZ : ∀ s, s < V.numServices → stZ.inst node s = 0 := by
    intro s hs
    rw [hstZ, zeroFold_inst]
    exact if_pos ⟨hmemL, hs⟩
  obtain ⟨l₁, l₂, hsplit⟩ := List.append_of_mem hmemL
  have hndsplit := hsplit ▸ hndL
  have hnotin1 : node ∉ l₁ := by
    intro hc
    exact (List.nodup_append.1 hndsplit).2.2 hc (List.mem_cons_self _ _)
  have hnotin2 : node ∉ l₂ :=
    (List.nodup_cons.1 (List.nodup_append.1 hndsplit).2.1).1
  rw [hsplit, List.foldl_append, List.foldl_cons]
  have hpre : ∀ s, s < V.numServices →
      (l₁.foldl (fun s0 m => coordProcessNode V s0 m) stZ).inst node s = 0 := by
    intro s hs
    rw [congrFun (processFold_inst_other V l₁ stZ node hnotin1) s]
    exact hrowZ s hs
  have hmid := coordProcessNode_sum V _ node hpre
  have hrow2 := processFold_inst_other V l₂
    (coordProcessNode V (l₁.foldl (fun s0 m => coordProcessNode V s0 m) stZ)
      node) node hnotin2
  calc sumInst _ node V.numServices
      = sumInst (coordProcessNode V
          (l₁.foldl (fun s0 m => coordProcessNode V s0 m) stZ) node) node
          V.numServices :=
        sumInst_congr _ _ _ _ (fun s _ => by rw [congrFun hrow2 s])
    _ ≤ V.numVMs node := hmid

/-- Whole-pass version: after `replace_services`, every non-cloud node
of a reachable depth holds at most `numOfVMs` VMs in total. -/
theorem coordReplace_sum_le (V : CoordView) (st : CoordState) (node : ℕ)
    (hmem : node ∈ V.nodes) (hdepth : V.depth node ≤ V.height)
    (hnd : V.nodes.Nodup) :
    sumInst (coordReplaceServices V st) node V.numServices ≤ V.numVMs node := by
  unfold coordReplaceServices
  have H : ∀ (hs : List ℕ) (st0 : CoordState), hs.Nodup → V.depth node ∈ hs →
      sumInst (hs.foldl (coordHeightStep V) st0) node V.numServices ≤
        V.numVMs node := by
    intro hs
    induction hs with
    | nil => intro st0 _ hd; exact absurd hd (List.not_mem_nil _)
    | cons h t ih =>
      intro st0 hnodup hd
      rw [List.foldl_cons]
      by_cases hcase : V.depth node = h
      · subst hcase
        have hnotin : V.depth node ∉ t := (List.nodup_cons.1 hnodup).1
        have hrow : ∀ (u : List ℕ) (st1 : CoordState),
            (∀ x ∈ u, x ≠ V.depth node) →
            (u.foldl (coordHeightStep V) st1).inst node = st1.inst node := by
          intro u
          induction u with
          | nil => intro st1 _; rfl
          | cons a w ihw =>
            intro st1 hx
            rw [List.foldl_cons,
              ihw _ (fun x hxw => hx x (List.mem_cons_of_mem _ hxw))]
            exact coordHeightStep_inst_other V st1 a node
              (fun hc => hx a (List.mem_cons_self _ _) hc.symm)
        have he : sumInst (t.foldl (coordHeightStep V)
            (coordHeightStep V st0 (V.depth node))) node V.numServices =
            sumInst (coordHeightStep V st0 (V.depth node)) node
              V.numServices :=
          sumInst_congr _ _ _ _ (fun s _ => by
            rw [congrFun (hrow t _ (fun x hx hc => hnotin (hc ▸ hx))) s])
        rw [he]
        exact coordHeightStep_sum V st0 node hmem hnd
      · rcases List.mem_cons.1 hd with h1 | h1
        · exact absurd h1 hcase
        · exact ih (coordHeightStep V st0 h) (List.nodup_cons.1 hnodup).2 h1
  exact H _ st (List.nodup_range _)
    (List.mem_range.2 (Nat.lt_succ_of_le hdepth))

/-! ### Zero-traffic behaviour of the Coordinated pass (C4) -/

theorem setInst_zero_or (st : CoordState) (node svc n s : ℕ) :
    (setInst st node svc 0).inst n s = st.inst n s ∨
      (setInst st node svc 0).inst n s = 0 := by
  show (if n = node ∧ s = svc then 0 else st.inst n s) = st.inst n s ∨
    (if n = node ∧ s = svc then 0 else st.inst n s) = 0
  split_ifs with h
  · exact Or.inr rfl
  · exact Or.inl rfl

/-- With all accumulators zero every service scores zero. -/
theorem coordServiceUtils_zero (V : CoordView) (st : CoordState) (node : ℕ)
    (hz : ZeroUtil st) : ∀ p ∈ coordServiceUtils V st node, p.2 = 0 := by
  intro p hp
  unfold coordServiceUtils at hp
  obtain ⟨s, hs, rfl⟩ := List.mem_map.1 hp
  show List.foldl _ 0 V.receivers = 0
  generalize V.receivers = rs
  suffices H : ∀ (rs : List ℕ) (acc : ℚ), List.foldl
      (fun acc recv =>
        if V.deadlineOf s > 2 * V.pathDelay recv node + V.serviceTime s then
          acc + st.util recv node s
        else acc) acc rs = acc from H rs 0
  intro rs
  induction rs with
  | nil => intro acc; rfl
  | cons a t iht =>
    intro acc
    rw [List.foldl_cons]
    have hstep : (if V.deadlineOf s >
        2 * V.pathDelay a node + V.serviceTime s then
          acc + st.util a node s else acc) = acc := by
      split_ifs with hc
      · rw [hz, add_zero]
      · rfl
    rw [hstep]
    exact iht acc

/-- With all utilisations zero, the first allocation loop only writes
zeros: the accumulators stay zero and every instance count is either
untouched or zero. -/
theorem allocFirst_zero (V : CoordView) (node : ℕ) :
    ∀ (l : List (ℕ × ℚ)) (st : CoordState) (r : ℕ),
      ZeroUtil st → (∀ p ∈ l, p.2 = 0) →
      ZeroUtil (allocFirst V node l st r).1 ∧
      (∀ n s, (allocFirst V node l st r).1.inst n s = st.inst n s ∨
              (allocFirst V node l st r).1.inst n s = 0) := by
  intro l
  induction l with
  | nil => intro st r hz _; exact ⟨hz, fun n s => Or.inl rfl⟩
  | cons p t ih =>
    intro st r hz hl
    obtain ⟨service, util⟩ := p
    have hu : util = 0 := hl _ (List.mem_cons_self _ _)
    subst hu
    simp only [allocFirst]
    have hnum : (pyRound ((0:ℚ) / V.interval)).toNat = 0 := by
      rw [zero_div, pyRound_zero]
      rfl
    rw [hnum, Nat.zero_min, Nat.sub_zero,
      if_neg (by simp : ¬(0 < r ∧ 0 < 0))]
    by_cases hr : r = 0
    · rw [if_pos hr]
      exact ⟨hz, fun n s => setInst_zero_or st node service n s⟩
    · rw [if_neg hr]
      obtain ⟨zu, or2⟩ := ih (setInst st node service 0) r hz
        (fun p hp => hl _ (List.mem_cons_of_mem _ hp))
      refine ⟨zu, fun n s => ?_⟩
      rcases or2 n s with h | h
      · rcases setInst_zero_or st node service n s with h2 | h2
        · exact Or.inl (h.trans h2)
        · exact Or.inr (h.trans h2)
      · exact Or.inr h

/-- With zero utilisations and no instances among the scanned services,
one pass of the while loop is the identity. -/
theorem allocWhilePass_zero (V : CoordView) (node : ℕ) :
    ∀ (l : List (ℕ × ℚ)) (st : CoordState) (r : ℕ) (b : Bool),
      (∀ p ∈ l, p.2 = 0) → (∀ p ∈ l, st.inst node p.1 = 0) →
      allocWhilePass V node l st r b = (st, r, b) := by
  intro l
  induction l with
  | nil => intro st r b _ _; rfl
  | cons p t ih =>
    intro st r b hl hi
    obtain ⟨service, util⟩ := p
    have hu : util = 0 := hl _ (List.mem_cons_self _ _)
    subst hu
    have hi0 : st.inst node service = 0 := hi _ (List.mem_cons_self _ _)
    simp only [allocWhilePass]
    have hceil : (Int.ceil ((0:ℚ) / V.interval)).toNat = 0 := by
      rw [zero_div, Int.ceil_zero]
      rfl
    rw [hi0, hceil, Nat.zero_min,
      if_neg (lt_irrefl 0), if_neg (lt_irrefl 0)]
    by_cases hr : r = 0
    · rw [if_pos hr, hr]
    · rw [if_neg hr]
      exact ih st r b (fun p hp => hl _ (List.mem_cons_of_mem _ hp))
        (fun p hp => hi _ (List.mem_cons_of_mem _ hp))

/-- With zero utilisations the whole while loop is the identity. -/
theorem allocWhile_zero (V : CoordView) (node : ℕ)
    (sortedUtils : List (ℕ × ℚ)) (hl : ∀ p ∈ sortedUtils, p.2 = 0) :
    ∀ (fuel : ℕ) (st : CoordState) (r : ℕ),
      (∀ p ∈ sortedUtils, st.inst node p.1 = 0) →
      allocWhile V node sortedUtils fuel st r = (st, r) := by
  intro fuel
  induction fuel with
  | zero => intro st r _; rfl
  | succ fuel _
  =>
    intro st r hi
    simp only [allocWhile]
    by_cases hr : r = 0
    · rw [if_pos hr]
    · rw [if_neg hr, allocWhilePass_zero V node sortedUtils st r false hl hi]
      rfl

/-- Over a zero-traffic interval the per-node body leaves the node's
(pre-zeroed) row zero and only ever writes zeros anywhere. -/
theorem coordProcessNode_zero (V : CoordView) (st : CoordState) (node : ℕ)
    (hz : ZeroUtil st) (hpre : ∀ s, s < V.numServices → st.inst node s = 0) :
    ZeroUtil (coordProcessNode V st node) ∧
    (∀ n s, (coordProcessNode V st node).inst n s = st.inst n s ∨
            (coordProcessNode V st node).inst n s = 0) := by
  simp only [coordProcessNode]
  set S := (coordServiceUtils V st node).insertionSort
    (fun a b => b.2 ≤ a.2) with hS
  have hperm : S.Perm (coordServiceUtils V st node) :=
    List.perm_insertionSort _ _
  have hS0 : ∀ p ∈ S, p.2 = 0 :=
    fun p hp => coordServiceUtils_zero V st node hz p (hperm.mem_iff.1 hp)
  have hSkeys : ∀ p ∈ S, p.1 < V.numServices := by
    intro p hp
    have : p.1 ∈ (coordServiceUtils V st node).map Prod.fst :=
      List.mem_map_of_mem Prod.fst (hperm.mem_iff.1 hp)
    rw [coordServiceUtils_map_fst] at this
    exact List.mem_range.1 this
  obtain ⟨zAF, orAF⟩ := allocFirst_zero V node S st (V.numVMs node) hz hS0
  have hiAF : ∀ p ∈ S,
      (allocFirst V node S st (V.numVMs node)).1.inst node p.1 = 0 := by
    intro p hp
    rcases orAF node p.1 with h | h
    · rw [h]; exact hpre _ (hSkeys p hp)
    · exact h
  rw [allocWhile_zero V node S hS0 _ _ _ hiAF]
  exact ⟨zAF, orAF⟩

/-- Zero-traffic behaviour of the allocation fold over a list of
pre-zeroed nodes. -/
theorem processFold_zero (V : CoordView) :
    ∀ (nodes : List ℕ) (st : CoordState),
      ZeroUtil st →
      (∀ n ∈ nodes, ∀ s, s < V.numServices → st.inst n s = 0) →
      ZeroUtil (nodes.foldl (fun s0 m => coordProcessNode V s0 m) st) ∧
      (∀ n s,
        (nodes.foldl (fun s0 m => coordProcessNode V s0 m) st).inst n s =
          st.inst n s ∨
        (nodes.foldl (fun s0 m => coordProcessNode V s0 m) st).inst n s =
          0) := by
  intro nodes
  induction nodes with
  | nil => intro st hz _; exact ⟨hz, fun n s => Or.inl rfl⟩
  | cons a t ih =>
    intro st hz hpre
    rw [List.foldl_cons]
    obtain ⟨z1, or1⟩ := coordProcessNode_zero V st a hz
      (hpre a (List.mem_cons_self _ _))
    have hpre1 : ∀ n ∈ t, ∀ s, s < V.numServices →
        (coordProcessNode V st a).inst n s = 0 := by
      intro n hn s hs
      rcases or1 n s with h | h
      · rw [h]; exact hpre n (List.mem_cons_of_mem _ hn) s hs
      · exact h
    obtain ⟨z2, or2⟩ := ih (coordProcessNode V st a) z1 hpre1
    refine ⟨z2, fun n s => ?_⟩
    rcases or2 n s with h | h
    · rcases or1 n s with h3 | h3
      · exact Or.inl (h.trans h3)
      · exact Or.inr (h.trans h3)
    · exact Or.inr h

/-- Zero-traffic behaviour of one height step: the nodes of that depth
end with all-zero rows. -/
theorem coordHeightStep_zero (V : CoordView) (st : CoordState) (hh : ℕ)
    (hz : ZeroUtil st) :
    ZeroUtil (coordHeightStep V st hh) ∧
    (∀ n s, (coordHeightStep V st hh).inst n s = st.inst n s ∨
            (coordHeightStep V st hh).inst n s = 0) ∧
    (∀ node ∈ V.nodes, V.depth node = hh → ∀ s, s < V.numServices →
        (coordHeightStep V st hh).inst node s = 0) := by
  simp only [coordHeightStep]
  set L := V.nodes.filter (fun n => V.depth n = hh) with hL
  set stZ := L.foldl (fun s0 n => zeroAllInst s0 n V.numServices) st with hZ
  have hzZ : ZeroUtil stZ := by
    intro a b c
    rw [hZ, zeroFold_util]
    exact hz a b c
  have hinstZ : ∀ n s, stZ.inst n s =
      if n ∈ L ∧ s < V.numServices then 0 else st.inst n s :=
    fun n s => by rw [hZ, zeroFold_inst]
  have hpreZ : ∀ n ∈ L, ∀ s, s < V.numServices → stZ.inst n s = 0 :=
    fun n hn s hs => by rw [hinstZ]; exact if_pos ⟨hn, hs⟩
  obtain ⟨zF, orF⟩ := processFold_zero V L stZ hzZ hpreZ
  refine ⟨zF, fun n s => ?_, fun node hmem hdep s hs => ?_⟩
  · rcases orF n s with h | h
    · rw [h, hinstZ]
      split_ifs with hc
      · exact Or.inr rfl
      · exact Or.inl rfl
    · exact Or.inr h
  · have hmemL : node ∈ L := List.mem_filter.2 ⟨hmem, by simp [hdep]⟩
    rcases orF node s with h | h
    · rw [h, hinstZ]
      exact if_pos ⟨hmemL, hs⟩
    · exact h

/-- Zero-traffic behaviour of the whole heights fold. -/
theorem coordFoldHeights_zero (V : CoordView) :
    ∀ (hts : List ℕ) (st : CoordState), ZeroUtil st →
      ZeroUtil (hts.foldl (coordHeightStep V) st) ∧
      (∀ n s, (hts.foldl (coordHeightStep V) st).inst n s = st.inst n s ∨
              (hts.foldl (coordHeightStep V) st).inst n s = 0) ∧
      (∀ node ∈ V.nodes, V.depth node ∈ hts → ∀ s, s < V.numServices →
          (hts.foldl (coordHeightStep V) st).inst node s = 0) := by
  intro hts
  induction hts with
  | nil =>
    intro st hz
    exact ⟨hz, fun n s => Or.inl rfl,
      fun node _ hd => absurd hd (List.not_mem_nil _)⟩
  | cons hh t ih =>
    intro st hz
    rw [List.foldl_cons]
    obtain ⟨z1, or1, dep1⟩ := coordHeightStep_zero V st hh hz
    obtain ⟨z2, or2, dep2⟩ := ih (coordHeightStep V st hh) z1
    refine ⟨z2, fun n s => ?_, fun node hmem hd s hs => ?_⟩
    · rcases or2 n s with h | h
      · rcases or1 n s with h3 | h3
        · exact Or.inl (h.trans h3)
        · exact Or.inr (h.trans h3)
      · exact Or.inr h
    · rcases List.mem_cons.1 hd with he | he
      · rcases or2 node s with h | h
        · rw [h]; exact dep1 node hmem he s hs
        · exact h
      · exact dep2 node hmem he s hs

/-- Over a zero-traffic interval, `replace_services` sets every reachable
non-cloud node's instance counts to zero. -/
theorem coordReplaceServices_zero_util (V : CoordView) (st : CoordState)
    (hz : ZeroUtil st) (node : ℕ) (hmem : node ∈ V.nodes)
    (hdepth : V.depth node ≤ V.height) (s : ℕ) (hs : s < V.numServices) :
    (coordReplaceServices V st).inst node s = 0 :=
  (coordFoldHeights_zero V (List.range (V.height + 1)) st hz).2.2 node hmem
    (List.mem_range.2 (Nat.lt_succ_of_le hdepth)) s hs

/-- Claim C1, counterexample: on `coordExView`/`coordExState` (sum of the
initial round-robin placement equals `numOfVMs = 2`), a replacement pass
over a zero-traffic interval leaves node 0 with a total of 0 VM
instances — the invariant `sum(service_instances) == num_VMs` does not
hold immediately after the pass. -/
theorem coordinated_sum_not_preserved :
    sumInst coordExState 0 coordExView.numServices = coordExView.numVMs 0 ∧
    sumInst (coordReplaceServices coordExView coordExState) 0
      coordExView.numServices ≠ coordExView.numVMs 0 := by
  constructor
  · decide
  · have h0 : sumInst (coordReplaceServices coordExView coordExState) 0
        coordExView.numServices = 0 :=
      Finset.sum_eq_zero fun s hs =>
        coordReplaceServices_zero_util coordExView coordExState
          (fun _ _ _ => rfl) 0 (by decide) (by decide) s
          (Finset.mem_range.1 hs)
    rw [h0]
    decide

/-- Claim C1 (amended): after `Coordinated.__init__`'s round-robin
placement the instance counts of a non-cloud spot sum to exactly
`numOfVMs`; after a `replace_services` pass the sum is at most
`numOfVMs` (equality can fail, e.g. over a zero-traffic interval, when
the pass zeroes the vector and allocates nothing). -/
theorem coordinated_vm_sum (M p : ℕ) (V : CoordView) (st : CoordState)
    (node : ℕ) (hp : 0 < p) (hpN : p ≤ V.numServices)
    (hmem : node ∈ V.nodes) (hdepth : V.depth node ≤ V.height)
    (hnd : V.nodes.Nodup) (hutil : ∀ r n s, 0 ≤ st.util r n s)
    (hint : 0 < V.interval) :
    (∑ s ∈ Finset.range V.numServices, coordInitInstances M p s) = M ∧
    sumInst (coordReplaceServices V st) node V.numServices ≤
      V.numVMs node := by
  constructor
  · unfold coordInitInstances
    calc ∑ s ∈ Finset.range V.numServices,
          ((Finset.range M).filter fun vm => vm % p = s).card
        = ∑ s ∈ Finset.range V.numServices, ∑ vm ∈ Finset.range M,
            if vm % p = s then 1 else 0 := by
          refine Finset.sum_congr rfl fun s _ => ?_
          rw [Finset.card_filter]
      _ = ∑ vm ∈ Finset.range M, ∑ s ∈ Finset.range V.numServices,
            if vm % p = s then 1 else 0 := Finset.sum_comm
      _ = ∑ vm ∈ Finset.range M, 1 := by
          refine Finset.sum_congr rfl fun vm _ => ?_
          rw [Finset.sum_ite_eq (Finset.range V.numServices) (vm % p)
            (fun _ => 1)]
          exact if_pos (Finset.mem_range.2
            (lt_of_lt_of_le (Nat.mod_lt vm hp) hpN))
      _ = M := by simp
  · exact coordReplace_sum_le V st node hmem hdepth hnd

/-- Witness for C1's theorem on the concrete one-node model. -/
theorem coordinated_vm_sum_witness :
    (∑ s ∈ Finset.range coordExView.numServices,
      coordInitInstances 2 2 s) = 2 ∧
    sumInst (coordReplaceServices coordExView coordExState) 0
      coordExView.numServices ≤ coordExView.numVMs 0 :=
  coordinated_vm_sum 2 2 coordExView coordExState 0 (by decide) (by decide)
    (by decide) (by decide) (by decide) (fun _ _ _ => le_refl 0)
    (by norm_num [coordExView])

/-- Claim C4, counterexample: every accumulator is zero at the start of
the interval, the pre-pass vector at node 0 holds one VM for service 0,
yet after `replace_services` the count is 0 — the pass is not idempotent
over zero-traffic intervals. -/
theorem coordinated_pass_not_idempotent :
    ZeroUtil coordExState ∧ coordExState.inst 0 0 = 1 ∧
    (coordReplaceServices coordExView coordExState).inst 0 0 = 0 :=
  ⟨fun _ _ _ => rfl, by decide,
    coordReplaceServices_zero_util coordExView coordExState
      (fun _ _ _ => rfl) 0 (by decide) (by decide) 0 (by decide)⟩

/-- Claim C4 (amended): over a zero-traffic interval, COORDINATED's
`replace_services` sets every non-cloud spot's `numberOfServiceInstances`
to all-zero (it zeroes the vector and the all-zero utilisations allocate
nothing), so the pass is idempotent only when the pre-pass vector is
already zero. -/
theorem coordinated_zero_traffic_pass (V : CoordView) (st : CoordState)
    (hz : ∀ r n s, st.util r n s = 0) (node : ℕ) (hmem : node ∈ V.nodes)
    (hdepth : V.depth node ≤ V.height) (s : ℕ) (hs : s < V.numServices) :
    (coordReplaceServices V st).inst node s = 0 :=
  coordReplaceServices_zero_util V st hz node hmem hdepth s hs

/-- Witness for C4's theorem on the concrete one-node model. -/
theorem coordinated_zero_traffic_pass_witness :
    (coordReplaceServices coordExView coordExState).inst 0 1 = 0 :=
  coordinated_zero_traffic_pass coordExView coordExState (fun _ _ _ => rfl)
    0 (by decide) (by decide) 1 (by decide)

/-! ### The COORDINATED feasibility probe (C2) -/

theorem setCompletionTimes_length :
    ∀ (ts : List Task) (cs : List ℚ),
      (setCompletionTimes ts cs).length = ts.length
  | [], [] => rfl
  | [], _ :: _ => rfl
  | _ :: _, [] => rfl
  | t :: ts, c :: cs => by
    simp [setCompletionTimes, setCompletionTimes_length ts cs]

theorem setCompletionTimes_flowIds :
    ∀ (ts : List Task) (cs : List ℚ),
      (setCompletionTimes ts cs).map Task.flow_id = ts.map Task.flow_id
  | [], [] => rfl
  | [], _ :: _ => rfl
  | _ :: _, [] => rfl
  | t :: ts, c :: cs => by
    simp [setCompletionTimes, setCompletionTimes_flowIds ts cs]

/-- Erasing a position whose element satisfies the predicate lowers the
count by one. -/
theorem countP_eraseIdx_of_sat {α : Type} (l : List α) (i : ℕ)
    (hi : i < l.length) (p : α → Bool) (hp : p l[i] = true) :
    (l.eraseIdx i).countP p + 1 = l.countP p := by
  rw [List.eraseIdx_eq_take_drop_succ, List.countP_append]
  conv_rhs => rw [← List.take_append_drop i l]
  rw [List.countP_append, List.drop_eq_getElem_cons hi,
    List.countP_cons_of_pos _ _ hp]
  omega

/-- Removing the tentative task (at its position in the sorted,
completion-time-updated queue) leaves no task carrying its flow id,
provided the flow id was fresh. -/
theorem erase_insert_fresh (uq : List Task) (aTask : Task) (cs2 : List ℚ)
    (hfresh : ∀ t ∈ uq, t.flow_id ≠ aTask.flow_id) :
    ∀ t ∈ (setCompletionTimes ((uq ++ [aTask]).insertionSort
        (fun a b => a.arrivalTime ≤ b.arrivalTime)) cs2).eraseIdx
        (((uq ++ [aTask]).insertionSort
          (fun a b => a.arrivalTime ≤ b.arrivalTime)).indexOf aTask),
      t.flow_id ≠ aTask.flow_id := by
  set p : Task → Bool := fun t => t.flow_id == aTask.flow_id with hp
  set uq1 := (uq ++ [aTask]).insertionSort
    (fun a b => a.arrivalTime ≤ b.arrivalTime) with huq1
  set uq2 := setCompletionTimes uq1 cs2 with huq2
  have hperm : uq1.Perm (uq ++ [aTask]) := List.perm_insertionSort _ _
  have hcount_uq : uq.countP p = 0 :=
    List.countP_eq_zero.2 (fun t ht => by simpa [hp] using hfresh t ht)
  have hcount1 : uq1.countP p = 1 := by
    rw [hperm.countP_eq, List.countP_append, hcount_uq]
    simp [hp, List.countP_cons]
  have hmem : aTask ∈ uq1 := hperm.mem_iff.2 (by simp)
  have hlen2 : uq2.length = uq1.length := setCompletionTimes_length uq1 cs2
  have hmapf : uq2.map Task.flow_id = uq1.map Task.flow_id :=
    setCompletionTimes_flowIds uq1 cs2
  have hcount2 : uq2.countP p = 1 := by
    have h1 : (uq2.map Task.flow_id).countP (fun x => x == aTask.flow_id) =
        (uq1.map Task.flow_id).countP (fun x => x == aTask.flow_id) := by
      rw [hmapf]
    rw [List.countP_map, List.countP_map] at h1
    exact h1.trans hcount1
  have hilt : uq1.indexOf aTask < uq1.length := List.indexOf_lt_length.2 hmem
  have hilt2 : uq1.indexOf aTask < uq2.length := by rw [hlen2]; exact hilt
  have hgetflow : uq2[uq1.indexOf aTask].flow_id = aTask.flow_id := by
    have h2 : (uq2.map Task.flow_id)[uq1.indexOf aTask]? =
        (uq1.map Task.flow_id)[uq1.indexOf aTask]? := by rw [hmapf]
    rw [List.getElem?_map, List.getElem?_map,
      List.getElem?_eq_getElem hilt2, List.getElem?_eq_getElem hilt] at h2
    simp only [Option.map_some'] at h2
    rw [List.getElem_indexOf hilt] at h2
    exact Option.some.inj h2
  have herase := countP_eraseIdx_of_sat uq2 (uq1.indexOf aTask) hilt2 p
    (by simp [hp, hgetflow])
  have hzero : (uq2.eraseIdx (uq1.indexOf aTask)).countP p = 0 := by omega
  intro t ht
  have := List.countP_eq_zero.1 hzero t ht
  simpa [hp] using this

/-- A failed probe leaves no task with the probed flow id in the node's
`upcomingTaskQueue` (the tentative task is removed again). -/
theorem ftfProbe_fresh (V : FtfView) (recv flow svc : ℕ)
    (time deadline rtt : ℚ) (n : ℕ) (st : SchedState)
    (hfresh : ∀ t ∈ st.upcomingTaskQueue, t.flow_id ≠ flow)
    (hfail : (ftfProbe V recv flow svc time deadline rtt n st).1 = false) :
    ∀ t ∈ (ftfProbe V recv flow svc time deadline rtt n
        st).2.upcomingTaskQueue, t.flow_id ≠ flow := by
  simp only [ftfProbe] at hfail ⊢
  split_ifs at hfail ⊢ with hC
  · exact erase_insert_fresh st.upcomingTaskQueue _ _ hfresh

/-- The walk characterised against the original per-node states: it
returns the topmost candidate passing the probe (or the source), and
every node other than the returned one ends with no queued task carrying
the flow id. -/
theorem ftfGo_spec (V : FtfView) (recv flow svc : ℕ)
    (time deadline rtt : ℚ) :
    ∀ (l : List ℕ) (states₁ states : ℕ → SchedState) (source : ℕ),
      l.Nodup → (∀ m ∈ l, states₁ m = states m) →
      (∀ n, ∀ t ∈ (states₁ n).upcomingTaskQueue, t.flow_id ≠ flow) →
      (ftfGo V recv flow svc time deadline rtt l states₁ source).1 =
        (l.find? (ftfCandidate V recv flow svc time deadline rtt
          states)).getD source ∧
      (∀ n, (ftfGo V recv flow svc time deadline rtt l states₁
          source).1 ≠ n →
        ∀ t ∈ ((ftfGo V recv flow svc time deadline rtt l states₁
            source).2 n).upcomingTaskQueue, t.flow_id ≠ flow) := by
  intro l
  induction l with
  | nil =>
    intro states₁ states source _ _ hfresh
    exact ⟨rfl, fun n _ => hfresh n⟩
  | cons n rest ih =>
    intro states₁ states source hnd hagree hfresh
    have hsn : states₁ n = states n := hagree n (List.mem_cons_self _ _)
    simp only [ftfGo]
    by_cases h1 : V.isCloud n
    · rw [if_pos h1, List.find?_cons_of_neg _ (by simp [ftfCandidate, h1])]
      exact ih states₁ states source (List.nodup_cons.1 hnd).2
        (fun m hm => hagree m (List.mem_cons_of_mem _ hm)) hfresh
    · rw [if_neg h1]
      by_cases h2 : V.instances n svc = 0
      · rw [if_pos h2,
          List.find?_cons_of_neg _ (by simp [ftfCandidate, h1, h2])]
        exact ih states₁ states source (List.nodup_cons.1 hnd).2
          (fun m hm => hagree m (List.mem_cons_of_mem _ hm)) hfresh
      · rw [if_neg h2]
        by_cases h3 : deadline - time - (rtt + 2 * V.pathDelay recv n) <
            V.serviceTime n svc
        · rw [if_pos h3,
            List.find?_cons_of_neg _ (by simp [ftfCandidate, h1, h2, h3])]
          exact ih states₁ states source (List.nodup_cons.1 hnd).2
            (fun m hm => hagree m (List.mem_cons_of_mem _ hm)) hfresh
        · rw [if_neg h3]
          by_cases h4 : (ftfProbe V recv flow svc time deadline rtt n
              (states₁ n)).1
          · rw [if_pos h4,
              List.find?_cons_of_pos _
                (by simp [ftfCandidate, h1, h2, h3, ← hsn, h4])]
            refine ⟨rfl, fun m hm t ht => ?_⟩
            have hmn : ¬ m = n := fun hc => hm (by rw [hc])
            dsimp only at ht
            rw [show updState states₁ n
                (ftfProbe V recv flow svc time deadline rtt n
                  (states₁ n)).2 m = states₁ m from if_neg hmn] at ht
            exact hfresh m t ht
          · have h4f : (ftfProbe V recv flow svc time deadline rtt n
                (states₁ n)).1 = false := by
              simpa using h4
            rw [if_neg (by simp [h4f]),
              List.find?_cons_of_neg _
                (by simp [ftfCandidate, h1, h2, h3, ← hsn, h4f])]
            have hfresh1 : ∀ m, ∀ t ∈ ((updState states₁ n
                (ftfProbe V recv flow svc time deadline rtt n
                  (states₁ n)).2) m).upcomingTaskQueue,
                t.flow_id ≠ flow := by
              intro m
              by_cases hm : m = n
              · subst hm
                rw [show updState states₁ m
                    (ftfProbe V recv flow svc time deadline rtt m
                      (states₁ m)).2 m =
                    (ftfProbe V recv flow svc time deadline rtt m
                      (states₁ m)).2 from if_pos rfl]
                exact ftfProbe_fresh V recv flow svc time deadline rtt m
                  (states₁ m) (hfresh m) h4f
              · rw [show updState states₁ n
                    (ftfProbe V recv flow svc time deadline rtt n
                      (states₁ n)).2 m = states₁ m from if_neg hm]
                exact hfresh m
            have hagree1 : ∀ m ∈ rest, (updState states₁ n
                (ftfProbe V recv flow svc time deadline rtt n
                  (states₁ n)).2) m = states m := by
              intro m hm
              have hmn : ¬ m = n := by
                intro hc
                exact (List.nodup_cons.1 hnd).1 (hc ▸ hm)
              rw [show updState states₁ n
                  (ftfProbe V recv flow svc time deadline rtt n
                    (states₁ n)).2 m = states₁ m from if_neg hmn]
              exact hagree m (List.mem_cons_of_mem _ hm)
            exact ih _ states source (List.nodup_cons.1 hnd).2 hagree1
              hfresh1

/-- Claim C2: COORDINATED's `find_topmost_feasible_node` walks the path
from the origin toward the receiver, skipping cloud spots, spots without
an instance of the service and spots with insufficient slack; each
remaining candidate is probed by tentatively inserting a Task into its
`upcomingTaskQueue`, refreshing the projected completion times and
checking every queued task against its `(expiry − path_delay)`; the
first (topmost) candidate whose probe succeeds is returned, a failed
probe removes the tentative task again (no task with the flow id stays
queued anywhere but at the returned node), and if no intermediate node
qualifies the origin (`content_source(service)`) is returned. -/
theorem coordinated_find_topmost_spec (V : FtfView) (recv flow svc : ℕ)
    (time deadline rtt : ℚ) (path : List ℕ) (states : ℕ → SchedState)
    (hnd : (((path.drop 1).dropLast).reverse).Nodup)
    (hfresh : ∀ n, ∀ t ∈ (states n).upcomingTaskQueue, t.flow_id ≠ flow) :
    (findTopmostFeasibleNode V recv flow path time svc deadline rtt
        states).1 =
      ((((path.drop 1).dropLast).reverse).find?
        (ftfCandidate V recv flow svc time deadline rtt states)).getD
        (V.contentSource svc) ∧
    (∀ n, (findTopmostFeasibleNode V recv flow path time svc deadline rtt
        states).1 ≠ n →
      ∀ t ∈ ((findTopmostFeasibleNode V recv flow path time svc deadline
          rtt states).2 n).upcomingTaskQueue, t.flow_id ≠ flow) :=
  ftfGo_spec V recv flow svc time deadline rtt
    (((path.drop 1).dropLast).reverse) states states
    (V.contentSource svc) hnd (fun _ _ => rfl) hfresh

/-- Witness for C2's theorem on the concrete single-candidate instance. -/
theorem coordinated_find_topmost_spec_witness :
    (findTopmostFeasibleNode ftfExView 10 5 [10, 1, 99] 0 0 10 0
        ftfExStates).1 =
      ((([10, 1, 99].drop 1).dropLast.reverse).find?
        (ftfCandidate ftfExView 10 5 0 0 10 0 ftfExStates)).getD
        (ftfExView.contentSource 0) :=
  (coordinated_find_topmost_spec ftfExView 10 5 0 0 10 0 [10, 1, 99]
    ftfExStates (by decide)
    (fun _ t ht => absurd ht (List.not_mem_nil t))).1

end IcarusEdgeSim
